import Mathlib

/-!
# gdir: access-control lists, record store, gist reconciliation and deployment

A shallow embedding of `tools/core/tasks.go`.

Conventions of the embedding:

* Go strings are Lean `String`s; Go slices of strings are `List String`
  (a `nil` slice and an empty slice are both `[]`, as `len` is the only
  thing the program asks of them).
* Standard input is a list of scan outcomes, one per `fmt.Scanln(&line)`
  call: `some tok` when the call stores the token `tok` into `line`, `none`
  when it fails before storing anything (empty line), which leaves `line`
  as it was.  An exhausted list is end of input, where every call fails.
* A loop that never exits is the result `none`.
* Output written with `fmt.Print*` is not modelled.
-/

namespace Gdir

/-! ## Data model -/

/-- The `User` record, with the fields `tasks.go` reads and writes. -/
structure User where
  Name : String
  Pass : String
  DrivesAllowList : List String
  DrivesBlockList : List String
deriving DecidableEq, Repr

/-- Standard input as the outcomes of successive `fmt.Scanln(&line)` calls. -/
abbrev Stdin := List (Option String)

/-- Go `fmt.Scanln(&line)`: a stored token overwrites `line`, a failed scan
(empty line, end of input) leaves it unchanged. -/
def Scanln (line : String) (stdin : Stdin) : String × Stdin :=
  match stdin with
  | [] => (line, [])
  | tok :: rest => (tok.getD line, rest)

/-! ## Errors and configuration -/

/-- Go `error` values met in `tasks.go`: the sentinels the code compares
against, any other error of a library or the operating system, and
`fmt.Errorf("msg: %w", cause)`. -/
inductive GoError where
  | ErrUserNotExists
  | ErrNotExist
  | ErrRepositoryNotExists
  | ErrRemoteNotFound
  | ErrBranchNotFound
  | AuthenticationFailure
  | other (msg : String)
  | wrap (msg : String) (cause : GoError)
deriving DecidableEq, Repr

/-- The fields of the global `Config` that the modelled functions read. -/
structure ConfigT where
  SecretKey : String
  AccountsJSONDir : String
  AccountsCount : Nat
deriving DecidableEq, Repr

/-! ## SHA-256 (`crypto/sha256`) and hexadecimal encoding (`encoding/hex`)

Bytes and 32-bit words are natural numbers; word arithmetic is reduced
modulo `2 ^ 32`. -/

/-- Round constants of SHA-256, in decimal. -/
def sha256K : List Nat :=
  [1116352408, 1899447441, 3049323471, 3921009573, 961987163, 1508970993,
   2453635748, 2870763221, 3624381080, 310598401, 607225278, 1426881987,
   1925078388, 2162078206, 2614888103, 3248222580, 3835390401, 4022224774,
   264347078, 604807628, 770255983, 1249150122, 1555081692, 1996064986,
   2554220882, 2821834349, 2952996808, 3210313671, 3336571891, 3584528711,
   113926993, 338241895, 666307205, 773529912, 1294757372, 1396182291,
   1695183700, 1986661051, 2177026350, 2456956037, 2730485921, 2820302411,
   3259730800, 3345764771, 3516065817, 3600352804, 4094571909, 275423344,
   430227734, 506948616, 659060556, 883997877, 958139571, 1322822218,
   1537002063, 1747873779, 1955562222, 2024104815, 2227730452, 2361852424,
   2428436474, 2756734187, 3204031479, 3329325298]

/-- The eight 32-bit chaining words of SHA-256. -/
structure Sha256State where
  h0 : Nat
  h1 : Nat
  h2 : Nat
  h3 : Nat
  h4 : Nat
  h5 : Nat
  h6 : Nat
  h7 : Nat
deriving DecidableEq, Repr

/-- Initial chaining value, in decimal. -/
def sha256Init : Sha256State :=
  ⟨1779033703, 3144134277, 1013904242, 2773480762, 1359893119, 2600822924, 528734635, 1541459225⟩

/-- Addition of `uint32`. -/
def add32 (x y : Nat) : Nat := (x + y) % 2 ^ 32

/-- Rotation `bits.RotateLeft32(x, -n)`. -/
def rotr32 (x n : Nat) : Nat := ((x >>> n) ||| (x <<< (32 - n))) % 2 ^ 32

/-- Big-endian 32-bit word of four bytes. -/
def beWord (b0 b1 b2 b3 : Nat) : Nat := b0 <<< 24 ||| b1 <<< 16 ||| b2 <<< 8 ||| b3

/-- The sixteen words of a 64-byte block. -/
def blockWords : List Nat → List Nat
  | b0 :: b1 :: b2 :: b3 :: rest => beWord b0 b1 b2 b3 :: blockWords rest
  | _ => []

/-- Message schedule: extend the window `w` (latest word first) by `n` words. -/
def schedule : Nat → List Nat → List Nat
  | 0, w => w
  | n + 1, w =>
    let w2 := w.getD 1 0
    let w7 := w.getD 6 0
    let w15 := w.getD 14 0
    let w16 := w.getD 15 0
    let s0 := rotr32 w15 7 ^^^ rotr32 w15 18 ^^^ (w15 >>> 3)
    let s1 := rotr32 w2 17 ^^^ rotr32 w2 19 ^^^ (w2 >>> 10)
    schedule n (add32 (add32 (add32 s1 w7) s0) w16 :: w)

/-- One round of the compression function. -/
def sha256Round (s : Sha256State) (k w : Nat) : Sha256State :=
  let S1 := rotr32 s.h4 6 ^^^ rotr32 s.h4 11 ^^^ rotr32 s.h4 25
  let ch := (s.h4 &&& s.h5) ^^^ ((s.h4 ^^^ (2 ^ 32 - 1)) &&& s.h6)
  let t1 := add32 (add32 (add32 (add32 s.h7 S1) ch) k) w
  let S0 := rotr32 s.h0 2 ^^^ rotr32 s.h0 13 ^^^ rotr32 s.h0 22
  let maj := (s.h0 &&& s.h1) ^^^ (s.h0 &&& s.h2) ^^^ (s.h1 &&& s.h2)
  let t2 := add32 S0 maj
  ⟨add32 t1 t2, s.h0, s.h1, s.h2, add32 s.h3 t1, s.h4, s.h5, s.h6⟩

/-- The 64 rounds over paired constants and schedule words. -/
def sha256Rounds (s : Sha256State) : List (Nat × Nat) → Sha256State
  | [] => s
  | (k, w) :: rest => sha256Rounds (sha256Round s k w) rest

/-- Compression of one 64-byte block into the chaining value. -/
def sha256Block (s : Sha256State) (block : List Nat) : Sha256State :=
  let w := (schedule 48 (blockWords block).reverse).reverse
  let t := sha256Rounds s (sha256K.zip w)
  ⟨add32 s.h0 t.h0, add32 s.h1 t.h1, add32 s.h2 t.h2, add32 s.h3 t.h3,
   add32 s.h4 t.h4, add32 s.h5 t.h5, add32 s.h6 t.h6, add32 s.h7 t.h7⟩

/-- Compression of the padded message, block after block; `n` bounds the
number of blocks. -/
def sha256Blocks : Nat → Sha256State → List Nat → Sha256State
  | 0, s, _ => s
  | n + 1, s, bytes =>
    if bytes.length < 64 then s
    else sha256Blocks n (sha256Block s (bytes.take 64)) (bytes.drop 64)

/-- Big-endian bytes of a 32-bit word. -/
def wordBytes (x : Nat) : List Nat :=
  [(x >>> 24) % 256, (x >>> 16) % 256, (x >>> 8) % 256, x % 256]

/-- Padding: 0x80, zeros up to 56 mod 64, then the bit length on 8 bytes. -/
def sha256Pad (msg : List Nat) : List Nat :=
  let bits := (msg.length * 8) % 2 ^ 64
  msg ++ [0x80] ++ List.replicate ((119 - msg.length % 64) % 64) 0 ++
    wordBytes (bits >>> 32) ++ wordBytes (bits % 2 ^ 32)

/-- Go `sha256.Sum256`: the 32-byte digest of a message. -/
def sha256Sum (msg : List Nat) : List Nat :=
  let p := sha256Pad msg
  let s := sha256Blocks (p.length / 64) sha256Init p
  wordBytes s.h0 ++ wordBytes s.h1 ++ wordBytes s.h2 ++ wordBytes s.h3 ++
    wordBytes s.h4 ++ wordBytes s.h5 ++ wordBytes s.h6 ++ wordBytes s.h7

/-- UTF-8 bytes of a string, `[]byte(s)`. -/
def stringBytes (s : String) : List Nat :=
  s.data.flatMap (fun c => (String.utf8EncodeChar c).map UInt8.toNat)

/-- One hexadecimal digit, lowercase. -/
def hexDigit (n : Nat) : Char :=
  "0123456789abcdef".data.getD n '0'

/-- Go `hex.EncodeToString`. -/
def hexEncodeToString (bytes : List Nat) : String :=
  String.mk (bytes.flatMap (fun b => [hexDigit (b / 16), hexDigit (b % 16)]))

/-- The running hash returned by `sha256.New()`: `Write` extends the
message, `Sum` appends the digest of everything written to its argument. -/
structure Sha256Hash where
  written : List Nat
deriving DecidableEq, Repr

/-- Go `sha256.New()`. -/
def sha256New : Sha256Hash := ⟨[]⟩

/-- Go `hash.Write(p)`. -/
def Sha256Hash.Write (h : Sha256Hash) (p : List Nat) : Sha256Hash := ⟨h.written ++ p⟩

/-- Go `hash.Sum(b)`. -/
def Sha256Hash.Sum (h : Sha256Hash) (b : List Nat) : List Nat := b ++ sha256Sum h.written

/-- Go `filepath.Join(a, b)` for two non-empty elements that `Clean` leaves as
they are, with the separator `/`. -/
def filepathJoin (a b : String) : String := a ++ "/" ++ b

/-! ## `ComputeUserPath` -/

/-- Function `ComputeUserPath(name)`: the path and the returned `err`. -/
def ComputeUserPath (Config : ConfigT) (name : String) : String × Option GoError :=
  let hash := sha256New
  let hash := hash.Write (stringBytes Config.SecretKey)
  let hash := hash.Write (stringBytes name)
  (filepathJoin "users" (hexEncodeToString (hash.Sum [])), none)

/-! ## Record store: `SaveUser`, `ReadUserByPath`, `ReadUser` -/

/-- The AEAD primitive behind the record store (`cipher.AEAD`): `Seal` returns
ciphertext followed by the tag, `Open` returns the plaintext when the tag
verifies for the key, nonce and additional data. -/
structure AEAD where
  Seal : String → List Nat → List Nat → List Nat → List Nat
  Open : String → List Nat → List Nat → List Nat → Option (List Nat)

/-- Modelled from the spec: `GCMEncrypt` is not among the sources.  It
"generates a fresh random nonce per call" (`nonce`, the 12 bytes drawn),
"performs authenticated encryption of `plaintext` binding `kind` as
associated data, and returns `nonce ‖ ciphertext‖tag`". -/
def GCMEncrypt (aead : AEAD) (nonce : List Nat) (key kind : String) (plaintext : List Nat) :
    Except GoError (List Nat) :=
  .ok (nonce ++ aead.Seal key nonce plaintext (stringBytes kind))

/-- Modelled from the spec: `GCMDecrypt` is not among the sources.  It
"splits nonce/ciphertext" (nonce of 12 bytes), "verifies the tag against
`kind` as associated data and `key`", and fails with an authentication error
if the tag does not verify. -/
def GCMDecrypt (aead : AEAD) (key kind : String) (record : List Nat) :
    Except GoError (List Nat) :=
  match aead.Open key (record.take 12) (record.drop 12) (stringBytes kind) with
  | none => .error GoError.AuthenticationFailure
  | some plaintext => .ok plaintext

/-- Go `json.Marshal` and `json.Unmarshal` at type `User` (the declaration of
`User`, with its field tags, is not among the sources).  `Unmarshal data user`
decodes into the record `user`. -/
structure JSONCodec where
  Marshal : User → Except GoError (List Nat)
  Unmarshal : List Nat → User → Except GoError User

/-- The files of the store: path to content. -/
abbrev FS := String → Option (List Nat)

/-- Go `ioutil.WriteFile(path, b, 0600)`, on a file system that stores what is
written. -/
def WriteFile (fs : FS) (path : String) (b : List Nat) : Option GoError × FS :=
  (none, fun p => if p = path then some b else fs p)

/-- Go `os.Stat(path)`: the returned error. -/
def Stat (fs : FS) (path : String) : Option GoError :=
  match fs path with
  | none => some GoError.ErrNotExist
  | some _ => none

/-- Go `os.IsNotExist`. -/
def IsNotExist (e : GoError) : Bool := e == GoError.ErrNotExist

/-- Go `ioutil.ReadFile(path)`. -/
def ReadFile (fs : FS) (path : String) : Except GoError (List Nat) :=
  match fs path with
  | none => .error GoError.ErrNotExist
  | some b => .ok b

/-- Function `SaveUser(user)`: the returned `err` and the file system. -/
def SaveUser (aead : AEAD) (codec : JSONCodec) (Config : ConfigT) (nonce : List Nat)
    (fs : FS) (user : User) : Option GoError × FS :=
  match ComputeUserPath Config user.Name with
  | (_, some e) => (some e, fs)
  | (userPath, none) =>
    match codec.Marshal user with
    | .error e => (some e, fs)
    | .ok b =>
      match GCMEncrypt aead nonce Config.SecretKey "user" b with
      | .error e => (some e, fs)
      | .ok b => WriteFile fs userPath b

/-- Function `ReadUserByPath(userPath, user)`: the returned `err` and `*user`. -/
def ReadUserByPath (aead : AEAD) (codec : JSONCodec) (Config : ConfigT) (fs : FS)
    (userPath : String) (user : User) : Option GoError × User :=
  match Stat fs userPath with
  | some e =>
    if IsNotExist e then (some GoError.ErrUserNotExists, user) else (some e, user)
  | none =>
    match ReadFile fs userPath with
    | .error e => (some e, user)
    | .ok inBytes =>
      match GCMDecrypt aead Config.SecretKey "user" inBytes with
      | .error e => (some e, user)
      | .ok inBytes =>
        match codec.Unmarshal inBytes user with
        | .error e => (some e, user)
        | .ok user => (none, user)

/-- Function `ReadUser(name, user)`. -/
def ReadUser (aead : AEAD) (codec : JSONCodec) (Config : ConfigT) (fs : FS)
    (name : String) (user : User) : Option GoError × User :=
  match ComputeUserPath Config name with
  | (_, some e) => (some e, user)
  | (userPath, none) => ReadUserByPath aead codec Config fs userPath user

/-- A stand-in AEAD for examples: the ciphertext is the plaintext and the tag
is 16 copies of a checksum of key, nonce, additional data and text, which
`Open` recomputes and compares. -/
def checksumTag (key : String) (nonce ad text : List Nat) : List Nat :=
  List.replicate 16 (((stringBytes key).sum + nonce.sum + ad.sum + text.sum) % 256)

/-- The stand-in AEAD built on `checksumTag`. -/
def checksumAEAD : AEAD where
  Seal := fun key nonce plaintext ad => plaintext ++ checksumTag key nonce ad plaintext
  Open := fun key nonce sealed ad =>
    let text := sealed.take (sealed.length - 16)
    if sealed.drop (sealed.length - 16) = checksumTag key nonce ad text then some text
    else none

/-- The record of the scenario of the specification. -/
def aliceUser : User := ⟨"alice", "", [], []⟩

/-- A stand-in codec for examples, which knows the one document
`\x7b"name":"alice"\x7d`. -/
def aliceCodec : JSONCodec where
  Marshal := fun u =>
    if u = aliceUser then .ok (stringBytes "\x7b\"name\":\"alice\"\x7d")
    else .error (GoError.other "json: unsupported value")
  Unmarshal := fun data user =>
    if data = stringBytes "\x7b\"name\":\"alice\"\x7d" then .ok { user with Name := "alice" }
    else .error (GoError.other "json: invalid document")

/-! ## Git repositories (go-git)

A repository is its configuration, the commits of its branch (latest first),
the index, the working tree, and what the branch of the remote holds.  Trees
map paths to contents.  Every library call fails exactly when the environment
of the call names a failure for it, and a failed call changes nothing. -/

/-- Go `config.RemoteConfig`. -/
structure RemoteConfig where
  Name : String
  URLs : List String
deriving DecidableEq, Repr

/-- Go `config.Branch`. -/
structure Branch where
  Name : String
  Remote : String
  Merge : String
deriving DecidableEq, Repr

/-- The `User` section of `config.Config`. -/
structure GitUser where
  Name : String
  Email : String
deriving DecidableEq, Repr

/-- Go `config.Config`: the maps `Remotes` and `Branches` are lists keyed by
`Name`. -/
structure GitConfig where
  User : GitUser
  Remotes : List RemoteConfig
  Branches : List Branch
deriving DecidableEq, Repr

/-- A tree of files: path and content. -/
abbrev Tree := List (String × String)

/-- Content of `p` in a tree. -/
def treeGet : Tree → String → Option String
  | [], _ => none
  | (q, v) :: t, p => if q = p then some v else treeGet t p

/-- A tree without `p`. -/
def treeErase (t : Tree) (p : String) : Tree := t.filter (fun e => decide (e.1 ≠ p))

/-- Go `object.Signature`. -/
structure Signature where
  Name : String
  Email : String
  When : Nat
deriving DecidableEq, Repr

/-- A commit: message, author and tree. -/
structure Commit where
  Message : String
  Author : Signature
  Tree : Tree
deriving DecidableEq, Repr

/-- Go `git.Repository` with its worktree. -/
structure Repository where
  Config : GitConfig
  Commits : List Commit
  Index : Tree
  Worktree : Tree
  Pushed : List Commit
deriving DecidableEq, Repr

/-- Tree of the last commit. -/
def Repository.HeadTree (r : Repository) : Tree :=
  match r.Commits with
  | [] => []
  | c :: _ => c.Tree

/-- What a directory path holds. -/
inductive DirState where
  | absent
  | plain (files : Tree)
  | repo (r : Repository)
deriving DecidableEq, Repr

/-- Library calls, as recorded in the order they are made. -/
inductive GitCall where
  | PlainOpen (dir : String)
  | Stat (dir : String)
  | PlainClone (dir url : String)
  | PlainInit (dir : String)
  | Remote (name : String)
  | CreateRemote (c : RemoteConfig)
  | Config
  | SetConfig (cfg : GitConfig)
  | Branch (name : String)
  | CreateBranch (b : Branch)
  | Worktree
  | Status
  | Remove (path : String)
  | AddGlob (pattern : String)
  | Commit (msg : String) (author : Signature)
  | Push (force : Bool)
deriving DecidableEq, Repr

/-- How a call of the program ends: it returns `err`, or it panics. -/
inductive Outcome where
  | returned (err : Option GoError)
  | panicked
deriving DecidableEq, Repr

/-- Result of `ConfigureGistGit` or `DeployGist`: the outcome, what the
directory holds afterwards, and the library calls made. -/
structure GitResult where
  outcome : Outcome
  dir : DirState
  calls : List GitCall
deriving DecidableEq, Repr

/-- Go `git.PlainOpen(dir)`: `ErrRepositoryNotExists` when the directory holds no
repository (or is absent). -/
def gitPlainOpen (fault : Option String) (st : DirState) : Except GoError Repository :=
  match fault with
  | some msg => .error (GoError.other msg)
  | none =>
    match st with
    | DirState.repo r => .ok r
    | _ => .error GoError.ErrRepositoryNotExists

/-- Environment of one `ConfigureGistGit` call: the failure, if any, of each
library call, and what the remote serves to a clone. -/
structure GistGitEnv where
  PlainOpen : Option String
  PlainClone : Option String
  PlainInit : Option String
  Remote : Option String
  CreateRemote : Option String
  Config : Option String
  SetConfig : Option String
  Branch : Option String
  CreateBranch : Option String
  Origin : List Commit
  OriginBranch : String
deriving DecidableEq, Repr

/-- Go `os.Stat(dir)` followed by `os.IsNotExist(err)`. -/
def dirIsNotExist (st : DirState) : Bool :=
  match st with
  | DirState.absent => true
  | _ => false

/-- Go `git.PlainClone(dir, false, &git.CloneOptions{URL: giturl})`: a
repository with the remote "origin" at `giturl`, the history of the remote,
its tree checked out, and the branch of the remote tracking "origin". -/
def gitPlainClone (env : GistGitEnv) (giturl : String) : Except GoError Repository :=
  match env.PlainClone with
  | some msg => .error (GoError.other msg)
  | none =>
    let tree : Tree := match env.Origin with
      | [] => []
      | c :: _ => c.Tree
    .ok { Config :=
            { User := ⟨"", ""⟩
              Remotes := [⟨"origin", [giturl]⟩]
              Branches := [⟨env.OriginBranch, "origin", "refs/heads/" ++ env.OriginBranch⟩] }
          Commits := env.Origin
          Index := tree
          Worktree := tree
          Pushed := env.Origin }

/-- Go `git.PlainInit(dir, false)`: an empty repository around the files of the
directory; an error when the directory holds a repository already. -/
def gitPlainInit (env : GistGitEnv) (st : DirState) : Except GoError Repository :=
  match env.PlainInit with
  | some msg => .error (GoError.other msg)
  | none =>
    match st with
    | DirState.repo _ => .error (GoError.other "repository already exists")
    | DirState.plain files =>
      .ok { Config := { User := ⟨"", ""⟩, Remotes := [], Branches := [] }
            Commits := [], Index := [], Worktree := files, Pushed := [] }
    | DirState.absent =>
      .ok { Config := { User := ⟨"", ""⟩, Remotes := [], Branches := [] }
            Commits := [], Index := [], Worktree := [], Pushed := [] }

/-- Go `r.Remote(name)`: the remote (`nil` on error) and the error. -/
def repoRemote (env : GistGitEnv) (r : Repository) (name : String) :
    Option RemoteConfig × Option GoError :=
  match env.Remote with
  | some msg => (none, some (GoError.other msg))
  | none =>
    match r.Config.Remotes.find? (fun c => c.Name == name) with
    | some c => (some c, none)
    | none => (none, some GoError.ErrRemoteNotFound)

/-- Go `r.CreateRemote(c)`: the remote, the error, and the repository.  A
remote of that name that exists already is refused with a `nil` remote.
Otherwise the call ends with `return remote, r.Storer.SetConfig(cfg)`: the
failure the environment names is that of this write, which returns the remote
together with the error and leaves the configuration as it was. -/
def repoCreateRemote (env : GistGitEnv) (r : Repository) (c : RemoteConfig) :
    Option RemoteConfig × Option GoError × Repository :=
  if r.Config.Remotes.any (fun x => x.Name == c.Name) then
    (none, some (GoError.other "remote already exists"), r)
  else
    match env.CreateRemote with
    | some msg => (some c, some (GoError.other msg), r)
    | none =>
      (some c, none, { r with Config := { r.Config with Remotes := r.Config.Remotes ++ [c] } })

/-- Go `r.Config()`. -/
def repoConfig (env : GistGitEnv) (r : Repository) : Except GoError GitConfig :=
  match env.Config with
  | some msg => .error (GoError.other msg)
  | none => .ok r.Config

/-- Go `r.SetConfig(cfg)`: the error and the repository. -/
def repoSetConfig (env : GistGitEnv) (r : Repository) (cfg : GitConfig) :
    Option GoError × Repository :=
  match env.SetConfig with
  | some msg => (some (GoError.other msg), r)
  | none => (none, { r with Config := cfg })

/-- Go `r.Branch(name)`: the returned error. -/
def repoBranch (env : GistGitEnv) (r : Repository) (name : String) : Option GoError :=
  match env.Branch with
  | some msg => some (GoError.other msg)
  | none =>
    if r.Config.Branches.any (fun b => b.Name == name) then none
    else some GoError.ErrBranchNotFound

/-- Go `r.CreateBranch(b)`: the error and the repository. -/
def repoCreateBranch (env : GistGitEnv) (r : Repository) (b : Branch) :
    Option GoError × Repository :=
  match env.CreateBranch with
  | some msg => (some (GoError.other msg), r)
  | none =>
    if r.Config.Branches.any (fun x => x.Name == b.Name) then
      (some (GoError.other "branch already exists"), r)
    else
      (none, { r with Config := { r.Config with Branches := r.Config.Branches ++ [b] } })

/-- Assignment `rConfig.Remotes[c.Name] = c`. -/
def setRemote (remotes : List RemoteConfig) (c : RemoteConfig) : List RemoteConfig :=
  if remotes.any (fun x => x.Name == c.Name) then
    remotes.map (fun x => if x.Name == c.Name then c else x)
  else remotes ++ [c]

/-! ## `ConfigureGistGit` -/

/-- The local `gitUser` of `ConfigureGistGit`. -/
def gitUser : String := "gdir"

/-- The local `gitEmail` of `ConfigureGistGit`. -/
def gitEmail : String := "gdir@gmail.com"

/-- The URL built by `ConfigureGistGit`. -/
def gistURL (gistID username token : String) : String :=
  "https://" ++ username ++ ":" ++ token ++ "@gist.github.com/" ++ gistID ++ ".git"

/-- Function `ConfigureGistGit`, from `r.Branch("master")` to the end. -/
def configureBranch (env : GistGitEnv) (dir : String) (r : Repository)
    (calls : List GitCall) : GitResult :=
  let calls := calls ++ [GitCall.Branch "master"]
  match repoBranch env r "master" with
  | none => ⟨Outcome.returned none, DirState.repo r, calls⟩
  | some err =>
    if err ≠ GoError.ErrBranchNotFound then
      ⟨Outcome.returned (some (GoError.wrap ("failed to get branch master of repo " ++ dir) err)),
        DirState.repo r, calls⟩
    else
      let b : Branch := ⟨"master", "origin", "refs/heads/master"⟩
      let calls := calls ++ [GitCall.CreateBranch b]
      match repoCreateBranch env r b with
      | (some err, r) =>
        ⟨Outcome.returned
            (some (GoError.wrap ("failed to create master branch in repo " ++ dir) err)),
          DirState.repo r, calls⟩
      | (none, r) => ⟨Outcome.returned none, DirState.repo r, calls⟩

/-- Function `ConfigureGistGit`, from `if rConfigChanged` to the end. -/
def configureSetConfig (env : GistGitEnv) (dir : String) (r : Repository)
    (rConfig : GitConfig) (rConfigChanged : Bool) (calls : List GitCall) : GitResult :=
  if rConfigChanged then
    let calls := calls ++ [GitCall.SetConfig rConfig]
    match repoSetConfig env r rConfig with
    | (some err, r) =>
      ⟨Outcome.returned (some (GoError.wrap ("failed to set git config of repo " ++ dir) err)),
        DirState.repo r, calls⟩
    | (none, r) => configureBranch env dir r calls
  else configureBranch env dir r calls

/-- Function `ConfigureGistGit`, the two tests on `rConfig.User`: the configuration
and `rConfigChanged` after them. -/
def enforceAuthor (rConfig : GitConfig) : GitConfig × Bool :=
  let rConfigChanged := false
  let (rConfig, rConfigChanged) :=
    if rConfig.User.Name ≠ gitUser then
      ({ rConfig with User := { rConfig.User with Name := gitUser } }, true)
    else (rConfig, rConfigChanged)
  if rConfig.User.Email ≠ gitEmail then
    ({ rConfig with User := { rConfig.User with Email := gitEmail } }, true)
  else (rConfig, rConfigChanged)

/-- Function `ConfigureGistGit`, the test on the URLs of the remote: the
configuration and `rConfigChanged` after it. -/
def enforceRemoteURL (rConfig : GitConfig) (rConfigChanged : Bool)
    (remoteConfig : RemoteConfig) (giturl : String) : GitConfig × Bool :=
  if remoteConfig.URLs.length = 0 ∨ remoteConfig.URLs.head? ≠ some giturl then
    ({ rConfig with
        Remotes := setRemote rConfig.Remotes { remoteConfig with URLs := [giturl] } },
      true)
  else (rConfig, rConfigChanged)

/-- Function `ConfigureGistGit`, from `r.Config()` to the end; `remote` is the handle
left by the lookup or creation of "origin", `none` for `nil`, on which
`remote.Config()` panics. -/
def configureConfig (env : GistGitEnv) (dir giturl : String) (r : Repository)
    (remote : Option RemoteConfig) (calls : List GitCall) : GitResult :=
  let calls := calls ++ [GitCall.Config]
  match repoConfig env r with
  | .error err =>
    ⟨Outcome.returned (some (GoError.wrap ("failed to read git config of repo " ++ dir) err)),
      DirState.repo r, calls⟩
  | .ok rConfig =>
    let a := enforceAuthor rConfig
    match remote with
    | none => ⟨Outcome.panicked, DirState.repo r, calls⟩
    | some remoteConfig =>
      let u := enforceRemoteURL a.1 a.2 remoteConfig giturl
      configureSetConfig env dir r u.1 u.2 calls

/-- Function `ConfigureGistGit`, from `r.Remote("origin")` to the end.  The error of
`CreateRemote` is overwritten by the next assignment to `err` without being
looked at. -/
def configureRemote (env : GistGitEnv) (dir giturl : String) (r : Repository)
    (calls : List GitCall) : GitResult :=
  let calls := calls ++ [GitCall.Remote "origin"]
  match repoRemote env r "origin" with
  | (remote, none) => configureConfig env dir giturl r remote calls
  | (_, some err) =>
    if err = GoError.ErrRemoteNotFound then
      let c : RemoteConfig := ⟨"origin", [giturl]⟩
      let calls := calls ++ [GitCall.CreateRemote c]
      match repoCreateRemote env r c with
      | (remote, _, r) => configureConfig env dir giturl r remote calls
    else
      ⟨Outcome.returned (some (GoError.wrap ("failed to get remote info of repo " ++ dir) err)),
        DirState.repo r, calls⟩

/-- Function `ConfigureGistGit(dir, gistID, username, token)` on a directory in state
`st`. -/
def ConfigureGistGit (env : GistGitEnv) (st : DirState) (dir gistID username token : String) :
    GitResult :=
  let giturl := gistURL gistID username token
  match gitPlainOpen env.PlainOpen st with
  | .ok r => configureRemote env dir giturl r [GitCall.PlainOpen dir]
  | .error err =>
    if err = GoError.ErrRepositoryNotExists then
      if dirIsNotExist st then
        let calls := [GitCall.PlainOpen dir, GitCall.Stat dir, GitCall.PlainClone dir giturl]
        match gitPlainClone env giturl with
        | .error err =>
          ⟨Outcome.returned (some (GoError.wrap ("failed to clone repo " ++ dir) err)), st, calls⟩
        | .ok r => configureRemote env dir giturl r calls
      else
        let calls := [GitCall.PlainOpen dir, GitCall.Stat dir, GitCall.PlainInit dir]
        match gitPlainInit env st with
        | .error err =>
          ⟨Outcome.returned (some (GoError.wrap ("failed to init repo " ++ dir) err)), st, calls⟩
        | .ok r => configureRemote env dir giturl r calls
    else
      ⟨Outcome.returned (some (GoError.wrap ("failed to open repo " ++ dir) err)), st,
        [GitCall.PlainOpen dir]⟩

/-! ## `DeployGist` -/

/-- Go `git.StatusCode`. -/
inductive StatusCode where
  | Unmodified
  | Untracked
  | Modified
  | Added
  | Deleted
deriving DecidableEq, Repr

/-- Go `git.FileStatus`. -/
structure FileStatus where
  Staging : StatusCode
  Worktree : StatusCode
deriving DecidableEq, Repr

/-- Go `git.Status`: the map from path to file status, as a list with one entry
per path; the loop over the map visits the entries in list order. -/
abbrev Status := List (String × FileStatus)

/-- Staging status of a path: the last commit against the index (`h`, `i`),
an untracked file being marked on both sides. -/
def stagingCode (h i w : Option String) : StatusCode :=
  match h, i with
  | none, none => if w.isSome then StatusCode.Untracked else StatusCode.Unmodified
  | none, some _ => StatusCode.Added
  | some _, none => StatusCode.Deleted
  | some a, some b => if a = b then StatusCode.Unmodified else StatusCode.Modified

/-- Worktree status of a path: the index against the working tree. -/
def worktreeCode (i w : Option String) : StatusCode :=
  match i, w with
  | none, none => StatusCode.Unmodified
  | none, some _ => StatusCode.Untracked
  | some _, none => StatusCode.Deleted
  | some a, some b => if a = b then StatusCode.Unmodified else StatusCode.Modified

/-- Status of one path of a repository. -/
def fileStatus (r : Repository) (p : String) : FileStatus :=
  ⟨stagingCode (treeGet r.HeadTree p) (treeGet r.Index p) (treeGet r.Worktree p),
    worktreeCode (treeGet r.Index p) (treeGet r.Worktree p)⟩

/-- The paths of the last commit, the index and the working tree, each once. -/
def statusPaths (r : Repository) : List String :=
  (r.HeadTree.map Prod.fst ++ r.Index.map Prod.fst ++ r.Worktree.map Prod.fst).dedup

/-- Environment of one `DeployGist` call: the failure, if any, of each
library call, and the clock. -/
structure DeployEnv where
  PlainOpen : Option String
  Worktree : Option String
  Status : Option String
  Remove : String → Option String
  AddGlob : Option String
  Commit : Option String
  Push : Option String
  Now : Nat

/-- Go `w.Status()`. -/
def worktreeStatus (env : DeployEnv) (r : Repository) : Except GoError Status :=
  match env.Status with
  | some msg => .error (GoError.other msg)
  | none => .ok ((statusPaths r).map (fun p => (p, fileStatus r p)))

/-- Go `status.IsClean()`. -/
def Status.IsClean (status : Status) : Bool :=
  status.all (fun e =>
    decide (e.2.Worktree = StatusCode.Unmodified) && decide (e.2.Staging = StatusCode.Unmodified))

/-- Go `w.Remove(p)`: the path leaves the index and the working tree. -/
def worktreeRemove (env : DeployEnv) (r : Repository) (p : String) :
    Option GoError × Repository :=
  match env.Remove p with
  | some msg => (some (GoError.other msg), r)
  | none => (none, { r with Index := treeErase r.Index p, Worktree := treeErase r.Worktree p })

/-- Go `w.AddGlob(".")`: every file of the working tree enters the index with
its content; index entries of paths without a file stay. -/
def worktreeAddGlob (env : DeployEnv) (r : Repository) : Option GoError × Repository :=
  match env.AddGlob with
  | some msg => (some (GoError.other msg), r)
  | none =>
    (none, { r with
      Index := r.Worktree ++ r.Index.filter (fun e => (treeGet r.Worktree e.1).isNone) })

/-- Go `w.Commit(msg, &git.CommitOptions{Author: author})`: a commit of the
index on top of the branch. -/
def worktreeCommit (env : DeployEnv) (r : Repository) (msg : String) (author : Signature) :
    Option GoError × Repository :=
  match env.Commit with
  | some err => (some (GoError.other err), r)
  | none => (none, { r with Commits := ⟨msg, author, r.Index⟩ :: r.Commits })

/-- Go `r.Push(&git.PushOptions{Force: true})`: the branch of the remote takes
the commits of the local branch. -/
def repoPush (env : DeployEnv) (r : Repository) : Option GoError × Repository :=
  match env.Push with
  | some msg => (some (GoError.other msg), r)
  | none => (none, { r with Pushed := r.Commits })

/-- The author `DeployGist` writes on its commit. -/
def deployAuthor (now : Nat) : Signature := ⟨"gdir", "gdir@mail.com", now⟩

/-- The loop of `DeployGist` over the status: `w.Remove(p)` for each path
whose worktree status is `Deleted`; the first failure is returned as is. -/
def removeDeleted (env : DeployEnv) :
    Status → Repository → List GitCall → Option GoError × Repository × List GitCall
  | [], r, calls => (none, r, calls)
  | (p, s) :: rest, r, calls =>
    if s.Worktree = StatusCode.Deleted then
      match worktreeRemove env r p with
      | (some err, r) => (some err, r, calls ++ [GitCall.Remove p])
      | (none, r) => removeDeleted env rest r (calls ++ [GitCall.Remove p])
    else removeDeleted env rest r calls

/-- Function `DeployGist(dir)` on a directory in state `st`. -/
def DeployGist (env : DeployEnv) (st : DirState) (dir : String) : GitResult :=
  match gitPlainOpen env.PlainOpen st with
  | .error err =>
    ⟨Outcome.returned (some (GoError.wrap ("failed to open git repo at " ++ dir) err)), st,
      [GitCall.PlainOpen dir]⟩
  | .ok r =>
    match env.Worktree with
    | some msg =>
      ⟨Outcome.returned
          (some (GoError.wrap ("failed to get git worktree of repo " ++ dir) (GoError.other msg))),
        st, [GitCall.PlainOpen dir, GitCall.Worktree]⟩
    | none =>
      let calls := [GitCall.PlainOpen dir, GitCall.Worktree, GitCall.Status]
      match worktreeStatus env r with
      | .error err =>
        ⟨Outcome.returned
            (some (GoError.wrap ("failed to get worktree status of repo " ++ dir) err)),
          st, calls⟩
      | .ok status =>
        if status.IsClean then ⟨Outcome.returned none, st, calls⟩
        else
          match removeDeleted env status r calls with
          | (some err, r, calls) => ⟨Outcome.returned (some err), DirState.repo r, calls⟩
          | (none, r, calls) =>
            let calls := calls ++ [GitCall.AddGlob "."]
            match worktreeAddGlob env r with
            | (some err, r) =>
              ⟨Outcome.returned
                  (some (GoError.wrap ("failed to stage changes to repo " ++ dir) err)),
                DirState.repo r, calls⟩
            | (none, r) =>
              let calls := calls ++ [GitCall.Commit "[gdir] deploy" (deployAuthor env.Now)]
              match worktreeCommit env r "[gdir] deploy" (deployAuthor env.Now) with
              | (some err, r) =>
                ⟨Outcome.returned (some (GoError.wrap ("failed to commit repo " ++ dir) err)),
                  DirState.repo r, calls⟩
              | (none, r) =>
                let calls := calls ++ [GitCall.Push true]
                match repoPush env r with
                | (some err, r) =>
                  ⟨Outcome.returned
                      (some (GoError.wrap ("failed to push to repo " ++ dir) err)),
                    DirState.repo r, calls⟩
                | (none, r) => ⟨Outcome.returned none, DirState.repo r, calls⟩

/-- An environment in which no call of `ConfigureGistGit` fails; the remote
serves one commit on branch "master". -/
def gistGitNoFaults : GistGitEnv :=
  { PlainOpen := none, PlainClone := none, PlainInit := none, Remote := none,
    CreateRemote := none, Config := none, SetConfig := none, Branch := none,
    CreateBranch := none
    Origin := [⟨"gist", ⟨"octocat", "octocat@github.com", 0⟩, [("README.md", "hello")]⟩]
    OriginBranch := "master" }

/-- An environment in which no call of `DeployGist` fails, at time `now`. -/
def deployNoFaults (now : Nat) : DeployEnv :=
  { PlainOpen := none, Worktree := none, Status := none, Remove := fun _ => none,
    AddGlob := none, Commit := none, Push := none, Now := now }

/-- An environment in which only the push of `DeployGist` fails. -/
def deployPushFails (now : Nat) (msg : String) : DeployEnv :=
  { deployNoFaults now with Push := some msg }

/-- A reconciled repository with one committed and pushed file, `a.json`,
whose content on disk has changed since. -/
def dirtyRepo : Repository :=
  { Config :=
      { User := ⟨"gdir", "gdir@gmail.com"⟩
        Remotes := [⟨"origin", ["https://u:t@gist.github.com/g.git"]⟩]
        Branches := [⟨"master", "origin", "refs/heads/master"⟩] }
    Commits := [⟨"init", ⟨"gdir", "gdir@mail.com", 0⟩, [("a.json", "v1")]⟩]
    Index := [("a.json", "v1")]
    Worktree := [("a.json", "v2")]
    Pushed := [⟨"init", ⟨"gdir", "gdir@mail.com", 0⟩, [("a.json", "v1")]⟩] }

/-! ## Go library functions used by the access-list code -/

/-- Worker of `strings.Split(s, sep)` for a one-character separator, on the
characters of `s`: the pieces between separators, always at least one. -/
def splitChars (sep : Char) : List Char → List (List Char)
  | [] => [[]]
  | c :: cs =>
    if c = sep then [] :: splitChars sep cs
    else
      match splitChars sep cs with
      | [] => [[c]]
      | w :: ws => (c :: w) :: ws

/-- Go `strings.Split(s, ",")`. -/
def Split (s : String) : List String :=
  (splitChars ',' s.data).map String.mk

/-- Go `unicode.IsSpace`. -/
def isSpace (c : Char) : Bool :=
  let n := c.toNat
  n == 0x09 || n == 0x0A || n == 0x0B || n == 0x0C || n == 0x0D || n == 0x20 ||
  n == 0x85 || n == 0xA0 || n == 0x1680 || (0x2000 ≤ n && n ≤ 0x200A) ||
  n == 0x2028 || n == 0x2029 || n == 0x202F || n == 0x205F || n == 0x3000

/-- Go `strings.TrimSpace`. -/
def TrimSpace (s : String) : String :=
  String.mk ((s.data.dropWhile isSpace).reverse.dropWhile isSpace).reverse

/-- Largest `uint64`. -/
def maxUint64 : Nat := 2 ^ 64 - 1

/-- Digit loop of `strconv.ParseUint(s, 10, 64)`: the value and whether an
error is returned.  A character that is not a decimal digit is a syntax error
with value 0; an overflow is a range error with value `maxUint64`. -/
def ParseUintLoop (n : Nat) : List Char → Nat × Bool
  | [] => (n, true)
  | c :: cs =>
    if '0' ≤ c ∧ c ≤ '9' then
      let d := c.toNat - '0'.toNat
      if n ≥ maxUint64 / 10 + 1 then (maxUint64, false)
      else
        let n10 := (n * 10) % 2 ^ 64
        let n1 := (n10 + d) % 2 ^ 64
        if n1 < n10 ∨ n1 > maxUint64 then (maxUint64, false)
        else ParseUintLoop n1 cs
    else (0, false)

/-- Go `strconv.ParseUint(s, 10, 64)` as (value, `err == nil`). -/
def ParseUint (s : String) : Nat × Bool :=
  if s = "" then (0, false) else ParseUintLoop 0 s.data

/-! ## `ConfigureUserAccessList` -/

/-- Choice "2": the loop over the split input, appending each trimmed drive
that the target list does not hold yet. -/
def appendLoop (targetList : List String) : List String → List String
  | [] => targetList
  | drive :: rest =>
    let drive := TrimSpace drive
    let found := targetList.any (fun d => d == drive)
    if !found then appendLoop (targetList ++ [drive]) rest
    else appendLoop targetList rest

/-- Choice "3": the loop over one split index line.  Every item appends the
parsed value to `idxs` (0 or `maxUint64` when it does not parse); an item
that does not parse clears `valid`. -/
def parseIdxs (idxs : List Nat) (valid : Bool) : List String → List Nat × Bool
  | [] => (idxs, valid)
  | idx :: rest =>
    let r := ParseUint idx
    parseIdxs (idxs ++ [r.1]) (valid && r.2) rest

/-- Choice "3": the `for` loop that reads index lines until one is valid.
`idxs` is declared before the loop and is not reset between rounds.  At end of
input `line` keeps its value, so the loop exits if that value is valid and
never exits otherwise. -/
def removeScan (line : String) (idxs : List Nat) : Stdin → Option (List Nat × Stdin)
  | [] =>
    let r := parseIdxs idxs true (Split line)
    if r.2 then some (r.1, []) else none
  | tok :: rest =>
    let line := tok.getD line
    let r := parseIdxs idxs true (Split line)
    if r.2 then some (r.1, rest) else removeScan line r.1 rest

/-- Choice "3": the loop over the target list from position `i`, keeping the
drives whose 1-based position is not in `idxs`. -/
def removeFilter (idxs : List Nat) : Nat → List String → List String
  | _, [] => []
  | i, drive :: rest =>
    let found := idxs.any (fun idx => i + 1 == idx)
    if !found then drive :: removeFilter idxs (i + 1) rest
    else removeFilter idxs (i + 1) rest

/-- What `ConfigureUserAccessList` leaves behind: the returned `confirmed`,
the two lists behind the pointers, and the rest of the input.  The returned
`err` is always `nil` (the only error raised, by `ParseUint`, is reset). -/
structure AccessResult where
  confirmed : Bool
  targetList : List String
  counterList : List String
  stdin : Stdin
deriving DecidableEq, Repr

/-- Function `ConfigureUserAccessList(targetListName, targetList, counterListName,
counterList)`; the names are only printed. -/
def ConfigureUserAccessList (targetList _counterList : List String) (stdin : Stdin) :
    Option AccessResult :=
  let counterList : List String := []
  let (line, stdin) := Scanln "" stdin
  if line = "1" ∨ line = "" then
    some ⟨true, targetList, counterList, stdin⟩
  else if line = "2" then
    let (line, stdin) := Scanln line stdin
    some ⟨false, appendLoop targetList (Split line), counterList, stdin⟩
  else if line = "3" then
    match removeScan line [] stdin with
    | none => none
    | some (idxs, stdin) =>
      some ⟨false, removeFilter idxs 0 targetList, counterList, stdin⟩
  else if line = "4" then
    let (line, stdin) := Scanln line stdin
    some ⟨false, (Split line).map TrimSpace, counterList, stdin⟩
  else if line = "5" then
    some ⟨false, [], targetList, stdin⟩
  else if line = "6" then
    some ⟨false, [], [], stdin⟩
  else
    some ⟨false, targetList, counterList, stdin⟩

/-! ## `ConfigureUserAccess` -/

/-- Result of one round of the `ConfigureUserAccess` loop. -/
structure StepResult where
  confirmed : Bool
  user : User
  stdin : Stdin
deriving DecidableEq, Repr

/-- One round of the `for` loop of `ConfigureUserAccess`. -/
def ConfigureUserAccessStep (user : User) (stdin : Stdin) : Option StepResult :=
  if user.DrivesAllowList.length > 0 then
    match ConfigureUserAccessList user.DrivesAllowList user.DrivesBlockList stdin with
    | none => none
    | some r =>
      some ⟨r.confirmed,
        { user with DrivesAllowList := r.targetList, DrivesBlockList := r.counterList },
        r.stdin⟩
  else if user.DrivesBlockList.length > 0 then
    match ConfigureUserAccessList user.DrivesBlockList user.DrivesAllowList stdin with
    | none => none
    | some r =>
      some ⟨r.confirmed,
        { user with DrivesBlockList := r.targetList, DrivesAllowList := r.counterList },
        r.stdin⟩
  else
    let (line, stdin) := Scanln "" stdin
    if line = "1" ∨ line = "" then
      some ⟨true, user, stdin⟩
    else if line = "2" then
      let (line, stdin) := Scanln line stdin
      some ⟨false, { user with DrivesAllowList := (Split line).map TrimSpace }, stdin⟩
    else if line = "3" then
      let (line, stdin) := Scanln line stdin
      some ⟨false, { user with DrivesBlockList := (Split line).map TrimSpace }, stdin⟩
    else
      some ⟨false, user, stdin⟩

/-- The `for` loop of `ConfigureUserAccess`, at most `fuel` rounds. -/
def ConfigureUserAccessLoop : Nat → User → Stdin → Option (User × Stdin)
  | 0, _, _ => none
  | fuel + 1, user, stdin =>
    match ConfigureUserAccessStep user stdin with
    | none => none
    | some r =>
      if r.confirmed then some (r.user, r.stdin)
      else ConfigureUserAccessLoop fuel r.user r.stdin

/-- Function `ConfigureUserAccess(user)`: every round but the last consumes input and
a round at end of input confirms, so `stdin.length + 1` rounds are enough. -/
def ConfigureUserAccess (user : User) (stdin : Stdin) : Option (User × Stdin) :=
  ConfigureUserAccessLoop (stdin.length + 1) user stdin

/-- Any `n` rounds of the loop body in a row, whatever `confirmed` says. -/
def runSteps : Nat → User → Stdin → Option (User × Stdin)
  | 0, user, stdin => some (user, stdin)
  | n + 1, user, stdin =>
    match ConfigureUserAccessStep user stdin with
    | none => none
    | some r => runSteps n r.user r.stdin

/-- The two lists are not both non-empty. -/
def ACLInvariant (user : User) : Prop :=
  ¬ (user.DrivesAllowList ≠ [] ∧ user.DrivesBlockList ≠ [])

instance (user : User) : Decidable (ACLInvariant user) := by
  unfold ACLInvariant; infer_instance

/-! ## `ProcessAccountsJSONDir` and the count published by `DeployWorker` -/

/-- Go `os.FileInfo`, with what the scan reads of it. -/
structure FileInfo where
  Name : String
  IsDir : Bool
  Size : Nat
deriving DecidableEq, Repr

/-- Go `strings.HasSuffix`. -/
def HasSuffix (s suffix : String) : Bool := suffix.data.isSuffixOf s.data

/-- Environment of one `ProcessAccountsJSONDir` call: the listing returned by
`ioutil.ReadDir(Config.AccountsJSONDir)`, whether the directory "accounts"
exists, the failure of `os.MkdirAll` if any, the nonce drawn for the file at
each position of the listing, and the result of `SaveConfigFile`. -/
structure AccountsEnv where
  ReadDir : Except GoError (List FileInfo)
  AccountsDirExists : Bool
  MkdirAll : Option GoError
  Nonce : Nat → List Nat
  SaveConfigFile : Option GoError

/-- What `ProcessAccountsJSONDir` leaves behind: the returned `err`, the
global `Config`, the file system, and the paths written, in order. -/
structure AccountsResult where
  err : Option GoError
  Config : ConfigT
  fs : FS
  written : List String

/-- The loop of `ProcessAccountsJSONDir` over the listing, from position `i`:
a regular, non-empty `.json` file is read, encrypted under kind "account",
written to `accounts/<i>`, and counted. -/
def processAccountsLoop (aead : AEAD) (env : AccountsEnv) :
    Nat → List FileInfo → ConfigT → FS → List String → AccountsResult
  | _, [], Config, fs, written => ⟨none, Config, fs, written⟩
  | i, file :: rest, Config, fs, written =>
    if !file.IsDir && HasSuffix file.Name ".json" && decide (file.Size > 0) then
      let inPath := filepathJoin Config.AccountsJSONDir file.Name
      match ReadFile fs inPath with
      | .error err => ⟨some err, Config, fs, written⟩
      | .ok inBytes =>
        match GCMEncrypt aead (env.Nonce i) Config.SecretKey "account" inBytes with
        | .error err => ⟨some err, Config, fs, written⟩
        | .ok outBytes =>
          let outPath := filepathJoin "accounts" (toString i)
          match WriteFile fs outPath outBytes with
          | (some err, fs) => ⟨some err, Config, fs, written⟩
          | (none, fs) =>
            processAccountsLoop aead env (i + 1) rest
              { Config with AccountsCount := Config.AccountsCount + 1 } fs
              (written ++ [outPath])
    else processAccountsLoop aead env (i + 1) rest Config fs written

/-- Function `ProcessAccountsJSONDir()`, from the test `Config.AccountsCount
== 0` on; the question asked before it when the count is positive
(`PromptYesNoWithDefault`, not among the sources) only decides the count
given here. -/
def ProcessAccountsJSONDir (aead : AEAD) (env : AccountsEnv) (Config : ConfigT) (fs : FS) :
    AccountsResult :=
  if Config.AccountsCount = 0 then
    match env.ReadDir with
    | .error err => ⟨some err, Config, fs, []⟩
    | .ok files =>
      match (if env.AccountsDirExists then none else env.MkdirAll) with
      | some err => ⟨some err, Config, fs, []⟩
      | none =>
        let r := processAccountsLoop aead env 0 files Config fs []
        match r.err with
        | some err => ⟨some err, r.Config, r.fs, r.written⟩
        | none => ⟨env.SaveConfigFile, r.Config, r.fs, r.written⟩
  else ⟨none, Config, fs, []⟩

/-- The replacement `DeployWorker` makes for `__ACCOUNTS_COUNT__`:
`strconv.FormatUint(Config.AccountsCount, 10)`. -/
def publishedAccountsCount (Config : ConfigT) : String := toString Config.AccountsCount

/-- A listing with a text file before the one account file. -/
def mixedListing : List FileInfo := [⟨"notes.txt", false, 12⟩, ⟨"sa.json", false, 3⟩]

/-- An environment of `ProcessAccountsJSONDir` that serves `mixedListing`,
with no failure. -/
def mixedListingEnv : AccountsEnv :=
  { ReadDir := .ok mixedListing, AccountsDirExists := false, MkdirAll := none,
    Nonce := fun _ => List.replicate 12 7, SaveConfigFile := none }

/-- A file system holding the account file of `mixedListing` under `keys`. -/
def mixedListingFS : FS := fun p => if p = "keys/sa.json" then some [1, 2, 3] else none

/-! ## `SelectCloudflareAccount`, `EnterNewWorkerName`, `SelectWorker` -/

/-- Go `cloudflare.Account`, with the fields the selection reads. -/
structure Account where
  ID : String
  Name : String
deriving DecidableEq, Repr

/-- Go `cloudflare.WorkerMetaData`, with the field the selection reads. -/
structure WorkerMetaData where
  ID : String
deriving DecidableEq, Repr

/-- Environment of the selections: the answers of the provider and the result
of `SaveConfigFile`. -/
structure CloudflareEnv where
  Accounts : Except GoError (List Account)
  ListWorkerScripts : Except GoError (List WorkerMetaData)
  SaveConfigFile : Option GoError
deriving Repr

/-- What a selection leaves behind: how it ends, the field of `Config` it
sets, and the rest of the input. -/
structure SelectResult where
  outcome : Outcome
  selected : String
  stdin : Stdin
deriving DecidableEq, Repr

/-- The index `selection-1` of type `uint64`. -/
def selectionIndex (selection : Nat) : Nat := (selection + 2 ^ 64 - 1) % 2 ^ 64

/-- The `for` loop of `SelectCloudflareAccount`: a line that does not parse
asks again (for ever at end of input, where `line` keeps its value); a line
that parses indexes `accounts[selection-1]`, which panics out of range. -/
def chooseAccount (accounts : List Account) (selected : String) (line : String) :
    Stdin → Option (Outcome × String × Stdin)
  | [] =>
    let r := ParseUint line
    if !r.2 then none
    else
      match accounts.get? (selectionIndex r.1) with
      | none => some (Outcome.panicked, selected, [])
      | some account => some (Outcome.returned none, account.ID, [])
  | tok :: rest =>
    let line := tok.getD line
    let r := ParseUint line
    if !r.2 then chooseAccount accounts selected line rest
    else
      match accounts.get? (selectionIndex r.1) with
      | none => some (Outcome.panicked, selected, rest)
      | some account => some (Outcome.returned none, account.ID, rest)

/-- Function `SelectCloudflareAccount()`, from the test
`Config.CloudflareAccount == ""` on, with `Cf.AccountID` empty; the
confirmation asked before it (`PromptYesNoWithDefault`, not among the
sources) only decides the value of `CloudflareAccount` given here. -/
def SelectCloudflareAccount (env : CloudflareEnv) (CloudflareAccount : String)
    (stdin : Stdin) : Option SelectResult :=
  if CloudflareAccount = "" then
    match env.Accounts with
    | .error err => some ⟨Outcome.returned (some err), CloudflareAccount, stdin⟩
    | .ok accounts =>
      if accounts.length = 0 then
        some ⟨Outcome.returned (some (GoError.other "no accounts under your cloudflare")),
          CloudflareAccount, stdin⟩
      else if accounts.length = 1 then
        match accounts.get? 0 with
        | none => some ⟨Outcome.panicked, CloudflareAccount, stdin⟩
        | some account => some ⟨Outcome.returned env.SaveConfigFile, account.ID, stdin⟩
      else
        match chooseAccount accounts CloudflareAccount "" stdin with
        | none => none
        | some (Outcome.returned none, selected, stdin) =>
          some ⟨Outcome.returned env.SaveConfigFile, selected, stdin⟩
        | some (outcome, selected, stdin) => some ⟨outcome, selected, stdin⟩
  else some ⟨Outcome.returned none, CloudflareAccount, stdin⟩

/-- The character class `[[:alpha:]]`, the ASCII letters. -/
def isAlpha (c : Char) : Bool := c.isLower || c.isUpper

/-- The character class `\w`. -/
def isWordChar (c : Char) : Bool := isAlpha c || c.isDigit || c == '_'

/-- The test of `EnterNewWorkerName` on a trimmed line: at most 63 bytes, a
letter first, a word character last, word characters and hyphens only. -/
def validWorkerName (line : String) : Bool :=
  decide (line.utf8ByteSize ≤ 63) &&
    (match line.data.head? with
      | some c => isAlpha c
      | none => false) &&
    (match line.data.getLast? with
      | some c => isWordChar c
      | none => false) &&
    (!line.data.isEmpty && line.data.all (fun c => isWordChar c || c == '-'))

/-- The `for` loop of `EnterNewWorkerName`: the name and the rest of the
input, `none` when it never gets a valid name. -/
def enterNameLoop (line : String) : Stdin → Option (String × Stdin)
  | [] =>
    let line := TrimSpace line
    if validWorkerName line then some (line, []) else none
  | tok :: rest =>
    let line := TrimSpace (tok.getD line)
    if validWorkerName line then some (line, rest) else enterNameLoop line rest

/-- Function `EnterNewWorkerName()`: the returned `err`, `Config.CloudflareWorker`
and the rest of the input. -/
def EnterNewWorkerName (env : CloudflareEnv) (stdin : Stdin) :
    Option (Option GoError × String × Stdin) :=
  match enterNameLoop "" stdin with
  | none => none
  | some (line, stdin) => some (env.SaveConfigFile, line, stdin)

/-- The `for` loop of `SelectWorker`: how it ends, `Config.CloudflareWorker`
and the rest of the input.  An empty line or the selection 0 enters a new
name; another selection indexes `resp.WorkerList[selection-1]`, which panics
out of range. -/
def chooseWorker (env : CloudflareEnv) (WorkerList : List WorkerMetaData) (selected : String)
    (line : String) : Stdin → Option (Outcome × String × Stdin)
  | [] =>
    if line = "" then
      match EnterNewWorkerName env [] with
      | none => none
      | some (err, name, stdin) => some (Outcome.returned err, name, stdin)
    else
      let r := ParseUint line
      if !r.2 then none
      else if r.1 = 0 then
        match EnterNewWorkerName env [] with
        | none => none
        | some (err, name, stdin) => some (Outcome.returned err, name, stdin)
      else
        match WorkerList.get? (selectionIndex r.1) with
        | none => some (Outcome.panicked, selected, [])
        | some worker => some (Outcome.returned none, worker.ID, [])
  | tok :: rest =>
    let line := tok.getD line
    if line = "" then
      match EnterNewWorkerName env rest with
      | none => none
      | some (err, name, stdin) => some (Outcome.returned err, name, stdin)
    else
      let r := ParseUint line
      if !r.2 then chooseWorker env WorkerList selected line rest
      else if r.1 = 0 then
        match EnterNewWorkerName env rest with
        | none => none
        | some (err, name, stdin) => some (Outcome.returned err, name, stdin)
      else
        match WorkerList.get? (selectionIndex r.1) with
        | none => some (Outcome.panicked, selected, rest)
        | some worker => some (Outcome.returned none, worker.ID, rest)

/-- Function `SelectWorker()`, from the test `Config.CloudflareWorker == ""`
on; the confirmation asked before it (`PromptYesNoWithDefault`, not among the
sources) only decides the value of `CloudflareWorker` given here.  After the
loop the result of `SaveConfigFile` replaces `err`. -/
def SelectWorker (env : CloudflareEnv) (CloudflareWorker : String) (stdin : Stdin) :
    Option SelectResult :=
  if CloudflareWorker = "" then
    match env.ListWorkerScripts with
    | .error err => some ⟨Outcome.returned (some err), CloudflareWorker, stdin⟩
    | .ok WorkerList =>
      if WorkerList.length = 0 then
        match EnterNewWorkerName env stdin with
        | none => none
        | some (err, name, stdin) => some ⟨Outcome.returned err, name, stdin⟩
      else
        match chooseWorker env WorkerList CloudflareWorker "" stdin with
        | none => none
        | some (Outcome.returned _, selected, stdin) =>
          some ⟨Outcome.returned env.SaveConfigFile, selected, stdin⟩
        | some (Outcome.panicked, selected, stdin) =>
          some ⟨Outcome.panicked, selected, stdin⟩
  else some ⟨Outcome.returned none, CloudflareWorker, stdin⟩

/-- A provider with two accounts and one worker, and no failure. -/
def twoAccountsEnv : CloudflareEnv :=
  { Accounts := .ok [⟨"id-a", "first"⟩, ⟨"id-b", "second"⟩]
    ListWorkerScripts := .ok [⟨"worker-a"⟩]
    SaveConfigFile := none }

/-- A reconciled repository with two committed and pushed files, of which
`b.json` has been deleted on disk since. -/
def deletedFileRepo : Repository :=
  { dirtyRepo with
    Commits := [⟨"init", ⟨"gdir", "gdir@mail.com", 0⟩, [("a.json", "v1"), ("b.json", "v1")]⟩]
    Index := [("a.json", "v1"), ("b.json", "v1")]
    Worktree := [("a.json", "v1")]
    Pushed := [⟨"init", ⟨"gdir", "gdir@mail.com", 0⟩, [("a.json", "v1"), ("b.json", "v1")]⟩] }

/-- A reconciled repository with one committed and pushed file and nothing
changed on disk. -/
def cleanRepo : Repository :=
  { dirtyRepo with Worktree := [("a.json", "v1")] }

/-- The remote named "origin" in the configuration of a repository. -/
def Repository.origin (r : Repository) : Option RemoteConfig :=
  r.Config.Remotes.find? (fun c => c.Name == "origin")

/-- Whether the configuration of a repository has a branch named "master". -/
def Repository.hasMaster (r : Repository) : Bool :=
  r.Config.Branches.any (fun b => b.Name == "master")

/-- The branch named "master" in the configuration of a repository. -/
def Repository.master (r : Repository) : Option Branch :=
  r.Config.Branches.find? (fun b => b.Name == "master")

/-- What a successful `ConfigureGistGit` has enforced: the fixed author, a
remote "origin" whose first URL is `giturl`, and a branch "master". -/
def Repository.Reconciled (r : Repository) (giturl : String) : Prop :=
  r.Config.User = ⟨gitUser, gitEmail⟩ ∧
  (∃ c, r.origin = some c ∧ c.URLs.head? = some giturl) ∧
  r.hasMaster = true

/-- The calls of `ConfigureGistGit` that write to the directory. -/
def GitCall.isWrite : GitCall → Bool
  | GitCall.PlainClone _ _ => true
  | GitCall.PlainInit _ => true
  | GitCall.CreateRemote _ => true
  | GitCall.SetConfig _ => true
  | GitCall.CreateBranch _ => true
  | _ => false

/-- A repository without the remote "origin", with the fixed author and the
branch "master". -/
def noOriginRepo : Repository :=
  { dirtyRepo with
    Config := { dirtyRepo.Config with Remotes := [] } }

/-- A repository whose branch "master" tracks another remote and branch. -/
def otherTrackingRepo : Repository :=
  { dirtyRepo with
    Config :=
      { dirtyRepo.Config with
        Remotes :=
          [⟨"origin", ["https://u:t@gist.github.com/g.git"]⟩,
            ⟨"upstream", ["https://example.org/up.git"]⟩]
        Branches := [⟨"master", "upstream", "refs/heads/main"⟩] } }

/-- An environment in which only `r.CreateRemote` fails. -/
def createRemoteFails : GistGitEnv :=
  { gistGitNoFaults with CreateRemote := some "cannot write config" }

/-- An environment in which `r.CreateRemote` and `r.Config` fail. -/
def createRemoteAndConfigFail : GistGitEnv :=
  { gistGitNoFaults with
    CreateRemote := some "cannot write config", Config := some "cannot read config" }

/-- The calls `ConfigureGistGit` makes once it holds a repository. -/
def GitCall.isReconcile : GitCall → Bool
  | GitCall.Remote _ => true
  | GitCall.CreateRemote _ => true
  | GitCall.Config => true
  | GitCall.SetConfig _ => true
  | GitCall.Branch _ => true
  | GitCall.CreateBranch _ => true
  | _ => false

/-- Two repositories that differ in their configuration at most. -/
def Repository.sameContent (a b : Repository) : Prop :=
  a.Commits = b.Commits ∧ a.Index = b.Index ∧ a.Worktree = b.Worktree ∧ a.Pushed = b.Pushed

/-- What the reconciliation of an opened repository `r` after the calls
`calls` may do: more reconciliation calls, on a repository that keeps its
content. -/
def GitResult.extends (res : GitResult) (r : Repository) (calls : List GitCall) : Prop :=
  (∃ more, res.calls = calls ++ more ∧ ∀ c ∈ more, c.isReconcile = true) ∧
  ∃ r2, res.dir = DirState.repo r2 ∧ r.sameContent r2

/-- Whether a status marks path `q` as deleted in the working tree. -/
def markedDeleted (status : Status) (q : String) : Bool :=
  status.any (fun e => decide (e.1 = q) && decide (e.2.Worktree = StatusCode.Deleted))

/-- Spec wording of append, "skipping ids already present": the first
occurrence of every entry, in order. -/
def keepFirst : List String → List String
  | [] => []
  | x :: xs => x :: (keepFirst xs).filter (fun y => decide (y ≠ x))

/-- Spec wording of append: the active list, then the ids it does not hold,
each once, in input order. -/
def unionNew (L ids : List String) : List String :=
  L ++ keepFirst (ids.filter (fun x => decide (x ∉ L)))

/-- Spec wording of remove: the entries whose 1-based position is not among
the indices, in order. -/
def dropPositions (L : List String) (idxs : List Nat) : List String :=
  (L.enum.filter (fun p => decide (p.1 + 1 ∉ idxs))).map Prod.snd

/-! ## Access-control lists: lemmas -/

theorem mem_keepFirst (x : String) (xs : List String) : x ∈ keepFirst xs ↔ x ∈ xs := by
  induction xs with
  | nil => simp [keepFirst]
  | cons y ys ih =>
    simp only [keepFirst, List.mem_cons, List.mem_filter, ih, decide_eq_true_eq]
    constructor
    · rintro (h | ⟨h, _⟩)
      · exact Or.inl h
      · exact Or.inr h
    · rintro (h | h)
      · exact Or.inl h
      · by_cases hxy : x = y
        · exact Or.inl hxy
        · exact Or.inr ⟨h, hxy⟩

theorem keepFirst_filter (p : String → Bool) (xs : List String) :
    keepFirst (xs.filter p) = (keepFirst xs).filter p := by
  induction xs with
  | nil => simp [keepFirst]
  | cons y ys ih =>
    by_cases hp : p y = true
    · simp only [List.filter_cons_of_pos hp, keepFirst, ih]
      rw [List.filter_filter, List.filter_filter]
      congr 1
      apply List.filter_congr
      intro z _
      exact Bool.and_comm _ _
    · have hp' : p y = false := by simpa using hp
      rw [List.filter_cons_of_neg hp]
      simp only [keepFirst, ih]
      rw [List.filter_cons_of_neg hp, List.filter_filter]
      apply List.filter_congr
      intro z _
      by_cases hz : z = y
      · subst hz; simp [hp']
      · simp [hz]

theorem keepFirst_nodup (xs : List String) : (keepFirst xs).Nodup := by
  induction xs with
  | nil => simp [keepFirst]
  | cons y ys ih =>
    simp only [keepFirst, List.nodup_cons, List.mem_filter, decide_eq_true_eq]
    exact ⟨fun h => h.2 rfl, ih.filter _⟩

theorem appendLoop_eq (items L : List String) :
    appendLoop L items = unionNew L (items.map TrimSpace) := by
  induction items generalizing L with
  | nil => simp [appendLoop, unionNew, keepFirst]
  | cons d rest ih =>
    by_cases hd : TrimSpace d ∈ L
    · have hany : L.any (fun x => x == TrimSpace d) = true := by
        simp only [List.any_eq_true, beq_iff_eq]
        exact ⟨_, hd, rfl⟩
      simp only [appendLoop, hany, Bool.not_true, Bool.false_eq_true, if_false, ih]
      simp [unionNew, hd]
    · have hany : L.any (fun x => x == TrimSpace d) = false := by
        rw [Bool.eq_false_iff]
        intro h
        simp only [List.any_eq_true, beq_iff_eq] at h
        obtain ⟨x, hx, rfl⟩ := h
        exact hd hx
      simp only [appendLoop, hany, Bool.not_false, if_true, ih]
      simp only [unionNew, List.map_cons, List.append_assoc, List.singleton_append]
      congr 1
      rw [List.filter_cons_of_pos (by simpa using hd)]
      simp only [keepFirst]
      congr 1
      rw [← keepFirst_filter, List.filter_filter]
      congr 1
      apply List.filter_congr
      intro z _
      by_cases hz : z = TrimSpace d
      · subst hz; simp
      · simp [hz]

theorem list_result_exclusive (t c : List String) (stdin : Stdin) (r : AccessResult)
    (h : ConfigureUserAccessList t c stdin = some r) :
    r.targetList = [] ∨ r.counterList = [] := by
  unfold ConfigureUserAccessList at h
  simp only [] at h
  split_ifs at h
  all_goals first
    | (cases h; simp)
    | (split at h
       · cases h
       · cases h; simp)

theorem step_invariant (user : User) (stdin : Stdin) (r : StepResult)
    (h : ConfigureUserAccessStep user stdin = some r) : ACLInvariant r.user := by
  unfold ConfigureUserAccessStep at h
  split_ifs at h with h1 h2
  · split at h
    · cases h
    · rename_i q hq
      cases h
      rcases list_result_exclusive _ _ _ _ hq with e | e <;> simp [ACLInvariant, e]
  · split at h
    · cases h
    · rename_i q hq
      cases h
      rcases list_result_exclusive _ _ _ _ hq with e | e <;> simp [ACLInvariant, e]
  · have ha : user.DrivesAllowList = [] := by
      cases hl : user.DrivesAllowList with
      | nil => rfl
      | cons a l => simp [hl] at h1
    have hb : user.DrivesBlockList = [] := by
      cases hl : user.DrivesBlockList with
      | nil => rfl
      | cons a l => simp [hl] at h2
    simp only [] at h
    split_ifs at h <;> cases h <;> simp [ACLInvariant, ha, hb]

theorem runSteps_invariant (n : Nat) (user : User) (stdin : Stdin) (r : User × Stdin)
    (h0 : ACLInvariant user) (h : runSteps n user stdin = some r) : ACLInvariant r.1 := by
  induction n generalizing user stdin with
  | zero =>
    simp only [runSteps, Option.some.injEq] at h
    subst h
    exact h0
  | succ n ih =>
    simp only [runSteps] at h
    split at h
    · cases h
    · rename_i q hq
      exact ih q.user q.stdin (step_invariant _ _ _ hq) h

theorem loop_invariant (fuel : Nat) (user : User) (stdin : Stdin) (r : User × Stdin)
    (h : ConfigureUserAccessLoop fuel user stdin = some r) : ACLInvariant r.1 := by
  induction fuel generalizing user stdin with
  | zero => simp [ConfigureUserAccessLoop] at h
  | succ n ih =>
    simp only [ConfigureUserAccessLoop] at h
    split at h
    · cases h
    · rename_i q hq
      split_ifs at h
      · cases h
        exact step_invariant _ _ _ hq
      · exact ih _ _ h

theorem parseIdxs_eq (items : List String) (idxs : List Nat) (valid : Bool) :
    parseIdxs idxs valid items =
      (idxs ++ items.map (fun s => (ParseUint s).1),
        valid && items.all (fun s => (ParseUint s).2)) := by
  induction items generalizing idxs valid with
  | nil => simp [parseIdxs]
  | cons a rest ih => simp [parseIdxs, ih, Bool.and_assoc]

theorem removeFilter_eq (idxs : List Nat) (L : List String) (i : Nat) :
    removeFilter idxs i L =
      ((L.enumFrom i).filter (fun p => decide (p.1 + 1 ∉ idxs))).map Prod.snd := by
  induction L generalizing i with
  | nil => simp [removeFilter]
  | cons d rest ih =>
    by_cases hm : i + 1 ∈ idxs
    · have hany : idxs.any (fun idx => i + 1 == idx) = true := by
        simp only [List.any_eq_true, beq_iff_eq]
        exact ⟨_, hm, rfl⟩
      simp [removeFilter, hany, ih, List.enumFrom, hm]
    · have hany : idxs.any (fun idx => i + 1 == idx) = false := by
        rw [Bool.eq_false_iff]
        intro h
        simp only [List.any_eq_true, beq_iff_eq] at h
        obtain ⟨x, hx, hxe⟩ := h
        exact hm (hxe ▸ hx)
      simp [removeFilter, hany, ih, List.enumFrom, hm]

theorem dropPositions_inRange (L : List String) (idxs : List Nat) :
    dropPositions L idxs =
      dropPositions L (idxs.filter (fun i => decide (1 ≤ i ∧ i ≤ L.length))) := by
  unfold dropPositions
  congr 1
  apply List.filter_congr
  intro p hp
  have hlt : p.1 < L.length := by
    have := List.mem_enumFrom hp
    omega
  simp only [List.mem_filter, decide_eq_true_eq, decide_eq_decide]
  constructor
  · intro h hh
    exact h hh.1
  · intro h hh
    exact h ⟨hh, by omega, by omega⟩

theorem dropPositions_sublist (L : List String) (idxs : List Nat) :
    (dropPositions L idxs).Sublist L := by
  unfold dropPositions
  have h1 : ((L.enum.filter (fun p => decide (p.1 + 1 ∉ idxs))).map Prod.snd).Sublist
      (L.enum.map Prod.snd) := (List.filter_sublist _).map _
  simpa [List.enum_map_snd] using h1

theorem dropPositions_outOfRange (L : List String) (idxs : List Nat)
    (h : ∀ i ∈ idxs, i = 0 ∨ L.length < i) : dropPositions L idxs = L := by
  rw [dropPositions_inRange]
  have hnil : idxs.filter (fun i => decide (1 ≤ i ∧ i ≤ L.length)) = [] := by
    rw [List.filter_eq_nil_iff]
    intro i hi
    have := h i hi
    simp only [decide_eq_true_eq]
    omega
  rw [hnil]
  simp [dropPositions, List.enum_map_snd]

theorem scanln_length (line : String) (stdin : Stdin) :
    (Scanln line stdin).2.length ≤ stdin.length := by
  cases stdin <;> simp [Scanln]

theorem removeScan_length (stdin : Stdin) (line : String) (idxs : List Nat)
    (r : List Nat × Stdin) (h : removeScan line idxs stdin = some r) :
    r.2.length ≤ stdin.length := by
  induction stdin generalizing line idxs with
  | nil =>
    simp only [removeScan] at h
    split_ifs at h
    cases h
    simp
  | cons tok rest ih =>
    simp only [removeScan] at h
    split_ifs at h
    · cases h
      simp
    · have := ih _ _ h
      simp only [List.length_cons]
      omega

theorem list_consumes (t c : List String) (tok : Option String) (rest : Stdin)
    (r : AccessResult) (h : ConfigureUserAccessList t c (tok :: rest) = some r) :
    r.stdin.length ≤ rest.length := by
  unfold ConfigureUserAccessList at h
  simp only [Scanln] at h
  split_ifs at h
  · cases h; simp
  · cases h; exact scanln_length _ _
  · split at h
    · cases h
    · rename_i idxs stdin2 heq
      cases h
      exact removeScan_length _ _ _ _ heq
  · cases h; exact scanln_length _ _
  · cases h; simp
  · cases h; simp
  · cases h; simp

theorem list_none (t c : List String) (stdin : Stdin)
    (h : ConfigureUserAccessList t c stdin = none) :
    ∃ rest, stdin = some "3" :: rest ∧ removeScan "3" [] rest = none := by
  cases stdin with
  | nil => simp [ConfigureUserAccessList, Scanln] at h
  | cons tok rest =>
    unfold ConfigureUserAccessList at h
    simp only [Scanln] at h
    split_ifs at h with h1 h2 h3
    split at h
    · rename_i heq
      cases tok with
      | none => simp at h1
      | some v =>
        simp only [Option.getD_some] at h3 heq
        subst h3
        exact ⟨rest, rfl, heq⟩
    · cases h

theorem step_none (user : User) (stdin : Stdin)
    (h : ConfigureUserAccessStep user stdin = none) :
    ∃ rest, stdin = some "3" :: rest ∧ removeScan "3" [] rest = none := by
  unfold ConfigureUserAccessStep at h
  split_ifs at h
  · split at h
    · rename_i heq
      exact list_none _ _ _ heq
    · cases h
  · split at h
    · rename_i heq
      exact list_none _ _ _ heq
    · cases h
  · simp only [] at h
    split_ifs at h

theorem list_at_eof (t c : List String) :
    ConfigureUserAccessList t c [] = some ⟨true, t, [], []⟩ := by
  simp [ConfigureUserAccessList, Scanln]

theorem step_confirms_at_eof (user : User) (r : StepResult)
    (h : ConfigureUserAccessStep user [] = some r) : r.confirmed = true := by
  unfold ConfigureUserAccessStep at h
  simp only [list_at_eof, Scanln, or_true, if_true] at h
  split_ifs at h <;> cases h <;> rfl

theorem step_consumes (user : User) (tok : Option String) (rest : Stdin) (r : StepResult)
    (h : ConfigureUserAccessStep user (tok :: rest) = some r) :
    r.stdin.length ≤ rest.length := by
  unfold ConfigureUserAccessStep at h
  split_ifs at h
  · split at h
    · cases h
    · rename_i q heq
      cases h
      exact list_consumes _ _ _ _ _ heq
  · split at h
    · cases h
    · rename_i q heq
      cases h
      exact list_consumes _ _ _ _ _ heq
  · simp only [Scanln] at h
    split_ifs at h <;> cases h <;> cases rest <;> simp

theorem loop_returns (fuel : Nat) (user : User) (stdin : Stdin) (hfuel : stdin.length < fuel)
    (h : ConfigureUserAccessLoop fuel user stdin = none) :
    ∃ u s, ConfigureUserAccessStep u s = none := by
  induction fuel generalizing user stdin with
  | zero => omega
  | succ n ih =>
    simp only [ConfigureUserAccessLoop] at h
    split at h
    · rename_i heq
      exact ⟨_, _, heq⟩
    · rename_i q heq
      split_ifs at h with hc
      apply ih q.user q.stdin _ h
      cases stdin with
      | nil => exact absurd (step_confirms_at_eof _ _ heq) hc
      | cons tok rest =>
        have := step_consumes _ _ _ _ heq
        simp only [List.length_cons] at hfuel
        omega

/-! ## Access-control lists: claims -/

/-- C1. After one round of the `ConfigureUserAccess` loop, from any user state
and on any input, the allow-list and the block-list are not both non-empty;
hence any number of rounds from a state with that property, and every
completed `ConfigureUserAccess` call, end in a state with that property.  A
round ends on every input but one where choice "3" never gets a valid index
line, and `ConfigureUserAccess` ends whenever its rounds do. -/
theorem acl_never_both_nonempty :
    (∀ (user : User) (stdin : Stdin) (r : StepResult),
      ConfigureUserAccessStep user stdin = some r → ACLInvariant r.user) ∧
    (∀ (n : Nat) (user : User) (stdin : Stdin) (r : User × Stdin),
      ACLInvariant user → runSteps n user stdin = some r → ACLInvariant r.1) ∧
    (∀ (user : User) (stdin : Stdin) (r : User × Stdin),
      ConfigureUserAccess user stdin = some r → ACLInvariant r.1) ∧
    (∀ (user : User) (stdin : Stdin), ConfigureUserAccessStep user stdin = none →
      ∃ rest, stdin = some "3" :: rest ∧ removeScan "3" [] rest = none) ∧
    (∀ (user : User) (stdin : Stdin), ConfigureUserAccess user stdin = none →
      ∃ u s, ConfigureUserAccessStep u s = none) :=
  ⟨step_invariant, runSteps_invariant, fun user stdin r h => loop_invariant _ user stdin r h,
    step_none, fun user stdin h => loop_returns _ user stdin (Nat.lt_succ_self _) h⟩

/-- C1, at a state that starts with both lists non-empty and converts the
allow-list into a block-list. -/
theorem acl_never_both_nonempty_witness :
    ConfigureUserAccessStep ⟨"u", "p", ["a"], ["b"]⟩ [some "5"] =
        some ⟨false, ⟨"u", "p", [], ["a"]⟩, []⟩ ∧
      ACLInvariant (⟨"u", "p", [], ["a"]⟩ : User) :=
  ⟨by decide,
   acl_never_both_nonempty.1 ⟨"u", "p", ["a"], ["b"]⟩ [some "5"]
     ⟨false, ⟨"u", "p", [], ["a"]⟩, []⟩ (by decide)⟩

/-- Choice "2" of `ConfigureUserAccessList` on a line that the scan stores:
the list becomes the old list followed by the trimmed input ids it did not
hold, each once, in input order; the added part has no duplicates and nothing
of the old list; and entering the same line again leaves that result
unchanged. -/
theorem append_is_idempotent_union (L C : List String) (line : String) (rest : Stdin) :
    ConfigureUserAccessList L C (some "2" :: some line :: rest) =
        some ⟨false, unionNew L ((Split line).map TrimSpace), [], rest⟩ ∧
      unionNew L ((Split line).map TrimSpace) =
        L ++ keepFirst (((Split line).map TrimSpace).filter (fun x => decide (x ∉ L))) ∧
      (keepFirst (((Split line).map TrimSpace).filter (fun x => decide (x ∉ L)))).Nodup ∧
      (∀ x, x ∈ keepFirst (((Split line).map TrimSpace).filter (fun x => decide (x ∉ L))) ↔
        x ∈ (Split line).map TrimSpace ∧ x ∉ L) ∧
      ConfigureUserAccessList (unionNew L ((Split line).map TrimSpace)) []
          (some "2" :: some line :: rest) =
        some ⟨false, unionNew L ((Split line).map TrimSpace), [], rest⟩ := by
  have hrun : ∀ L' C' : List String,
      ConfigureUserAccessList L' C' (some "2" :: some line :: rest) =
        some ⟨false, unionNew L' ((Split line).map TrimSpace), [], rest⟩ := by
    intro L' C'
    simp [ConfigureUserAccessList, Scanln, appendLoop_eq]
  refine ⟨hrun L C, rfl, keepFirst_nodup _, ?_, ?_⟩
  · intro x
    simp [mem_keepFirst, List.mem_filter]
  · rw [hrun]
    congr 2
    have hnil : ((Split line).map TrimSpace).filter
        (fun x => decide (x ∉ unionNew L ((Split line).map TrimSpace))) = [] := by
      rw [List.filter_eq_nil_iff]
      intro x hx
      simp only [decide_eq_true_eq, not_not, unionNew, List.mem_append, mem_keepFirst,
        List.mem_filter]
      by_cases hL : x ∈ L
      · exact Or.inl hL
      · exact Or.inr ⟨hx, hL⟩
    conv_lhs => rw [unionNew, hnil]
    simp [keepFirst]

/-- Choice "2" of `ConfigureUserAccessList` on any outcome of the scan of the
ids and at end of input: the ids appended are those of the line the scan
stores, and those of the choice "2" itself when the scan stores nothing. -/
theorem append_on_any_scan (L C : List String) (tok : Option String) (rest : Stdin) :
    ConfigureUserAccessList L C (some "2" :: tok :: rest) =
        some ⟨false, unionNew L ((Split (tok.getD "2")).map TrimSpace), [], rest⟩ ∧
      ConfigureUserAccessList L C [some "2"] =
        some ⟨false, unionNew L ((Split "2").map TrimSpace), [], []⟩ := by
  constructor <;> simp [ConfigureUserAccessList, Scanln, appendLoop_eq]

/-- C2, the code where the line of ids is empty: on the list `["d1"]`, after
the choice "2", a scan that stores nothing (an empty line, or end of input)
leaves `line` holding "2", and the id "2" is appended, which the operator
did not enter as a drive; the ids of an empty line would be the one empty
id. -/
theorem append_on_empty_line_adds_the_choice :
    Scanln "2" [none] = ("2", []) ∧
      ConfigureUserAccessList ["d1"] [] [some "2", none] =
        some ⟨false, ["d1", "2"], [], []⟩ ∧
      ConfigureUserAccessList ["d1"] [] [some "2"] = some ⟨false, ["d1", "2"], [], []⟩ ∧
      (Split "").map TrimSpace = [""] ∧
      unionNew ["d1"] ((Split "").map TrimSpace) = ["d1", ""] := by
  refine ⟨by decide, by decide, by decide, by decide, by decide⟩

/-- C3. Choice "3" of `ConfigureUserAccessList` with a valid index line
(every item parses): the list becomes the entries of the old list whose
1-based position is not among the parsed indices, in order; indices outside
`1..len` (0 included) change nothing, and when all are outside the list is
kept whole. -/
theorem remove_drops_given_positions (L C : List String) (line : String) (rest : Stdin)
    (hvalid : ∀ item ∈ Split line, (ParseUint item).2 = true) :
    ConfigureUserAccessList L C (some "3" :: some line :: rest) =
        some ⟨false, dropPositions L ((Split line).map (fun s => (ParseUint s).1)), [],
          rest⟩ ∧
      (dropPositions L ((Split line).map (fun s => (ParseUint s).1))).Sublist L ∧
      dropPositions L ((Split line).map (fun s => (ParseUint s).1)) =
        dropPositions L (((Split line).map (fun s => (ParseUint s).1)).filter
          (fun i => decide (1 ≤ i ∧ i ≤ L.length))) ∧
      ((∀ i ∈ (Split line).map (fun s => (ParseUint s).1), i = 0 ∨ L.length < i) →
        dropPositions L ((Split line).map (fun s => (ParseUint s).1)) = L) := by
  refine ⟨?_, dropPositions_sublist _ _, dropPositions_inRange _ _,
    dropPositions_outOfRange _ _⟩
  have hall : (Split line).all (fun s => (ParseUint s).2) = true := by
    rw [List.all_eq_true]
    exact hvalid
  simp [ConfigureUserAccessList, Scanln, removeScan, parseIdxs_eq, hall, removeFilter_eq,
    dropPositions, List.enum]

/-- C3, scenario of the specification: `["d1","d2"]` with remove `[1]` yields
`["d2"]`. -/
theorem remove_drops_given_positions_witness :
    ConfigureUserAccessList ["d1", "d2"] [] [some "3", some "1"] =
        some ⟨false, ["d2"], [], []⟩ ∧
      dropPositions ["d1", "d2"] ((Split "1").map (fun s => (ParseUint s).1)) = ["d2"] :=
  ⟨by decide,
   by
    have h := (remove_drops_given_positions ["d1", "d2"] [] "1" [] (by decide)).1
    have h2 : ConfigureUserAccessList ["d1", "d2"] [] [some "3", some "1"] =
        some ⟨false, ["d2"], [], []⟩ := by decide
    rw [h2] at h
    simpa using h.symm⟩

/-- C4. Choice "5" with a non-empty active list `L` and an empty opposite
list: the active list becomes empty and the opposite list becomes `L`; a
second "5", which `ConfigureUserAccess` dispatches on the opposite list,
restores the original state, so "5", "5", confirm returns the user as it
was. -/
theorem convert_moves_and_restores (name pass : String) (L : List String) (rest : Stdin)
    (hL : L ≠ []) :
    ConfigureUserAccessStep ⟨name, pass, L, []⟩ (some "5" :: rest) =
        some ⟨false, ⟨name, pass, [], L⟩, rest⟩ ∧
      ConfigureUserAccessStep ⟨name, pass, [], L⟩ (some "5" :: rest) =
        some ⟨false, ⟨name, pass, L, []⟩, rest⟩ ∧
      ConfigureUserAccess ⟨name, pass, L, []⟩ (some "5" :: some "5" :: some "1" :: rest) =
        some (⟨name, pass, L, []⟩, rest) ∧
      ConfigureUserAccess ⟨name, pass, [], L⟩ (some "5" :: some "5" :: some "1" :: rest) =
        some (⟨name, pass, [], L⟩, rest) := by
  have hlen : 0 < L.length := List.length_pos.mpr hL
  have h1 : ∀ rest : Stdin, ConfigureUserAccessStep ⟨name, pass, L, []⟩ (some "5" :: rest) =
      some ⟨false, ⟨name, pass, [], L⟩, rest⟩ := by
    intro rest
    simp [ConfigureUserAccessStep, ConfigureUserAccessList, Scanln, hlen]
  have h2 : ∀ rest : Stdin, ConfigureUserAccessStep ⟨name, pass, [], L⟩ (some "5" :: rest) =
      some ⟨false, ⟨name, pass, L, []⟩, rest⟩ := by
    intro rest
    simp [ConfigureUserAccessStep, ConfigureUserAccessList, Scanln, hlen]
  have h3 : ∀ rest : Stdin, ConfigureUserAccessStep ⟨name, pass, L, []⟩ (some "1" :: rest) =
      some ⟨true, ⟨name, pass, L, []⟩, rest⟩ := by
    intro rest
    simp [ConfigureUserAccessStep, ConfigureUserAccessList, Scanln, hlen]
  have h4 : ∀ rest : Stdin, ConfigureUserAccessStep ⟨name, pass, [], L⟩ (some "1" :: rest) =
      some ⟨true, ⟨name, pass, [], L⟩, rest⟩ := by
    intro rest
    simp [ConfigureUserAccessStep, ConfigureUserAccessList, Scanln, hlen]
  refine ⟨h1 rest, h2 rest, ?_, ?_⟩
  · simp [ConfigureUserAccess, ConfigureUserAccessLoop, h1, h2, h3]
  · simp [ConfigureUserAccess, ConfigureUserAccessLoop, h1, h2, h4]

/-- C4, on the allow-list `["d1","d2"]`. -/
theorem convert_moves_and_restores_witness :
    ConfigureUserAccessStep ⟨"u", "p", ["d1", "d2"], []⟩ [some "5"] =
        some ⟨false, ⟨"u", "p", [], ["d1", "d2"]⟩, []⟩ ∧
      ConfigureUserAccess ⟨"u", "p", ["d1", "d2"], []⟩ [some "5", some "5", some "1"] =
        some (⟨"u", "p", ["d1", "d2"], []⟩, []) :=
  ⟨(convert_moves_and_restores "u" "p" ["d1", "d2"] [] (by decide)).1,
   (convert_moves_and_restores "u" "p" ["d1", "d2"] [] (by decide)).2.2.1⟩

/-- C5, as stated, fails: with both lists non-empty, confirming with "1"
returns `confirmed = true` but the block-list has been cleared. -/
theorem confirm_clears_counter_list_counterexample :
    ConfigureUserAccessList ["a"] ["b"] [some "1"] = some ⟨true, ["a"], [], []⟩ ∧
      ConfigureUserAccessStep ⟨"u", "p", ["a"], ["b"]⟩ [some "1"] =
        some ⟨true, ⟨"u", "p", ["a"], []⟩, []⟩ ∧
      (⟨"u", "p", ["a"], []⟩ : User).DrivesBlockList ≠
        (⟨"u", "p", ["a"], ["b"]⟩ : User).DrivesBlockList := by
  decide

/-- C5, amended. When the first scan yields "1" or nothing (`tok` is
`some "1"`, `some ""` or `none`), one round returns `confirmed = true`, keeps
the allow-list, and keeps the block-list unless the allow-list is non-empty,
in which case the block-list is cleared; so a user whose lists are not both
non-empty is returned exactly as it was, by the round and by the whole
`ConfigureUserAccess` call. -/
theorem confirm_keeps_consistent_state (user : User) (tok : Option String) (rest : Stdin)
    (htok : tok = some "1" ∨ tok = some "" ∨ tok = none) :
    ConfigureUserAccessStep user (tok :: rest) =
        some ⟨true,
          { user with
            DrivesBlockList := if user.DrivesAllowList = [] then user.DrivesBlockList else [] },
          rest⟩ ∧
      (ACLInvariant user →
        ConfigureUserAccessStep user (tok :: rest) = some ⟨true, user, rest⟩ ∧
        ConfigureUserAccess user (tok :: rest) = some (user, rest)) := by
  have hstep : ConfigureUserAccessStep user (tok :: rest) =
      some ⟨true,
        { user with
          DrivesBlockList := if user.DrivesAllowList = [] then user.DrivesBlockList else [] },
        rest⟩ := by
    obtain ⟨name, pass, allow, block⟩ := user
    rcases htok with h | h | h <;> subst h <;>
      cases allow <;> cases block <;>
        simp [ConfigureUserAccessStep, ConfigureUserAccessList, Scanln]
  refine ⟨hstep, ?_⟩
  intro hinv
  have hsame : ({ user with
      DrivesBlockList := if user.DrivesAllowList = [] then user.DrivesBlockList else [] } : User)
      = user := by
    obtain ⟨name, pass, allow, block⟩ := user
    cases allow <;> cases block <;> simp_all [ACLInvariant]
  rw [hsame] at hstep
  refine ⟨hstep, ?_⟩
  simp [ConfigureUserAccess, ConfigureUserAccessLoop, hstep]

/-- C5 amended, on an allow-list user. -/
theorem confirm_keeps_consistent_state_witness :
    ConfigureUserAccessStep ⟨"u", "p", ["a"], []⟩ [some "1"] =
        some ⟨true, ⟨"u", "p", ["a"], []⟩, []⟩ ∧
      ConfigureUserAccess ⟨"u", "p", ["a"], []⟩ [some "1"] =
        some (⟨"u", "p", ["a"], []⟩, []) :=
  (confirm_keeps_consistent_state ⟨"u", "p", ["a"], []⟩ (some "1") [] (Or.inl rfl)).2
    (by decide)

/-! ## Record store: lemmas -/

theorem wordBytes_length (x : Nat) : (wordBytes x).length = 4 := rfl

theorem sha256Sum_length (msg : List Nat) : (sha256Sum msg).length = 32 := by
  simp [sha256Sum, wordBytes_length]

theorem hexEncodeToString_length (bytes : List Nat) :
    (hexEncodeToString bytes).length = 2 * bytes.length := by
  unfold hexEncodeToString
  rw [String.length_mk]
  induction bytes with
  | nil => rfl
  | cons b rest ih =>
    simp only [List.flatMap_cons, List.length_append, List.length_cons, List.length_nil, ih]
    omega

theorem hexDigit_mem (n : Nat) : hexDigit n ∈ "0123456789abcdef".data := by
  by_cases h : n < 16
  · interval_cases n <;> decide
  · have hlen : "0123456789abcdef".data.length ≤ n := by
      have : "0123456789abcdef".data.length = 16 := by decide
      omega
    have h0 : hexDigit n = '0' := by
      unfold hexDigit
      rw [List.getD_eq_default _ _ hlen]
    rw [h0]
    decide

theorem hexEncodeToString_chars (bytes : List Nat) :
    ∀ c ∈ (hexEncodeToString bytes).data, c ∈ "0123456789abcdef".data := by
  intro c hc
  simp only [hexEncodeToString, List.mem_flatMap, List.mem_cons, List.mem_singleton,
    List.not_mem_nil, or_false] at hc
  obtain ⟨b, _, rfl | rfl⟩ := hc <;> exact hexDigit_mem _

theorem stringBytes_append (a b : String) :
    stringBytes (a ++ b) = stringBytes a ++ stringBytes b := by
  simp [stringBytes, String.data_append]

theorem computeUserPath_eq (Config : ConfigT) (name : String) :
    ComputeUserPath Config name =
      (filepathJoin "users"
        (hexEncodeToString (sha256Sum (stringBytes Config.SecretKey ++ stringBytes name))),
        none) := by
  show (filepathJoin "users" (hexEncodeToString (([] : List Nat) ++
    sha256Sum (([] ++ stringBytes Config.SecretKey) ++ stringBytes name))), none) = _
  rw [List.nil_append, List.nil_append]

/-! ## Record store: claims -/

/-- C7. `ComputeUserPath` returns a nil error and the path `users` joined
with the hexadecimal rendering of the SHA-256 digest of the bytes of the key
followed by the bytes of the name; the rendering has 64 characters, all among
`0123456789abcdef`; and two (key, name) pairs with the same concatenation get
the same path. -/
theorem computeUserPath_is_hash_of_concatenation (Config : ConfigT) (name : String) :
    ComputeUserPath Config name =
        (filepathJoin "users"
          (hexEncodeToString (sha256Sum (stringBytes Config.SecretKey ++ stringBytes name))),
          none) ∧
      (hexEncodeToString
        (sha256Sum (stringBytes Config.SecretKey ++ stringBytes name))).length = 64 ∧
      (∀ c ∈ (hexEncodeToString
          (sha256Sum (stringBytes Config.SecretKey ++ stringBytes name))).data,
        c ∈ "0123456789abcdef".data) ∧
      (ComputeUserPath Config name).1.length = 70 ∧
      (∀ (Config2 : ConfigT) (name2 : String),
        stringBytes Config2.SecretKey ++ stringBytes name2 =
          stringBytes Config.SecretKey ++ stringBytes name →
        ComputeUserPath Config2 name2 = ComputeUserPath Config name) := by
  refine ⟨computeUserPath_eq Config name, ?_, hexEncodeToString_chars _, ?_, ?_⟩
  · rw [hexEncodeToString_length, sha256Sum_length]
  · rw [computeUserPath_eq]
    simp only [filepathJoin, String.length_append, hexEncodeToString_length, sha256Sum_length]
    decide
  · intro Config2 name2 h
    rw [computeUserPath_eq, computeUserPath_eq, h]

/-- C7, on two ways of cutting `abc` into key and name. -/
theorem computeUserPath_is_hash_of_concatenation_witness :
    ComputeUserPath ⟨"a", "", 0⟩ "bc" = ComputeUserPath ⟨"ab", "", 0⟩ "c" :=
  (computeUserPath_is_hash_of_concatenation ⟨"ab", "", 0⟩ "c").2.2.2.2 ⟨"a", "", 0⟩ "bc"
    (by decide)

/-- C6. With the AEAD primitive inverting itself under equal key, nonce and
additional data, a 12-byte nonce, and a JSON codec that decodes what it
encodes of `u`: `GCMDecrypt` under kind "user" returns the bytes given to
`GCMEncrypt` under kind "user"; `SaveUser u` succeeds and stores that record
at `ComputeUserPath(u.Name)`; and `ReadUser(u.Name)` on the resulting file
system returns a nil error and `u`. -/
theorem save_then_read_returns_user (aead : AEAD) (codec : JSONCodec) (Config : ConfigT)
    (nonce : List Nat) (fs : FS) (u target : User)
    (hnonce : nonce.length = 12)
    (haead : ∀ (key : String) (n pt ad : List Nat),
      aead.Open key n (aead.Seal key n pt ad) ad = some pt)
    (hjson : ∃ b, codec.Marshal u = .ok b ∧ codec.Unmarshal b target = .ok u) :
    (∀ m : List Nat, ∃ record,
        GCMEncrypt aead nonce Config.SecretKey "user" m = .ok record ∧
        GCMDecrypt aead Config.SecretKey "user" record = .ok m) ∧
      (SaveUser aead codec Config nonce fs u).1 = none ∧
      (∃ b, codec.Marshal u = .ok b ∧
        (SaveUser aead codec Config nonce fs u).2 (ComputeUserPath Config u.Name).1 =
          some (nonce ++ aead.Seal Config.SecretKey nonce b (stringBytes "user"))) ∧
      ReadUser aead codec Config (SaveUser aead codec Config nonce fs u).2 u.Name target =
        (none, u) := by
  have hsplit : ∀ m : List Nat,
      GCMDecrypt aead Config.SecretKey "user"
        (nonce ++ aead.Seal Config.SecretKey nonce m (stringBytes "user")) = .ok m := by
    intro m
    unfold GCMDecrypt
    rw [← hnonce, List.take_left, List.drop_left, haead]
  obtain ⟨b, hm, hu⟩ := hjson
  obtain ⟨path, hp⟩ : ∃ path, ComputeUserPath Config u.Name = (path, none) :=
    ⟨_, computeUserPath_eq Config u.Name⟩
  have hsave : SaveUser aead codec Config nonce fs u =
      (none, fun p => if p = path then
        some (nonce ++ aead.Seal Config.SecretKey nonce b (stringBytes "user")) else fs p) := by
    unfold SaveUser
    rw [hp]
    simp only [hm, GCMEncrypt, WriteFile]
  refine ⟨fun m => ⟨_, rfl, hsplit m⟩, ?_, ⟨b, hm, ?_⟩, ?_⟩
  · rw [hsave]
  · rw [hsave, hp]
    simp
  · rw [hsave]
    unfold ReadUser
    rw [hp]
    simp only [ReadUserByPath, Stat, ReadFile, if_true, hsplit, hu]

/-- C6, scenario of the specification: the record of "alice" under the
secret "secret", saved into an empty store and read back. -/
theorem save_then_read_returns_user_witness :
    ReadUser checksumAEAD aliceCodec ⟨"secret", "", 0⟩
        (SaveUser checksumAEAD aliceCodec ⟨"secret", "", 0⟩ (List.replicate 12 7)
          (fun _ => none) aliceUser).2
        "alice" ⟨"", "", [], []⟩ =
      (none, aliceUser) :=
  (save_then_read_returns_user checksumAEAD aliceCodec ⟨"secret", "", 0⟩
    (List.replicate 12 7) (fun _ => none) aliceUser ⟨"", "", [], []⟩
    (by decide)
    (by
      intro key n pt ad
      simp [checksumAEAD, checksumTag])
    ⟨stringBytes "\x7b\"name\":\"alice\"\x7d", by simp [aliceCodec],
      by simp [aliceCodec, aliceUser]⟩).2.2.2

/-! ## Reconciliation: lemmas -/

theorem sameContent_refl (r : Repository) : r.sameContent r := ⟨rfl, rfl, rfl, rfl⟩

theorem extends_nil (o : Outcome) (r r2 : Repository) (calls : List GitCall)
    (h : r.sameContent r2) : GitResult.extends ⟨o, DirState.repo r2, calls⟩ r calls :=
  ⟨⟨[], by simp, by simp⟩, r2, rfl, h⟩

theorem extends_step (res : GitResult) (r r2 : Repository) (calls : List GitCall) (c : GitCall)
    (hc : c.isReconcile = true) (hr : r.sameContent r2)
    (h : res.extends r2 (calls ++ [c])) : res.extends r calls := by
  obtain ⟨⟨more, hm, hall⟩, r3, hd, h3⟩ := h
  refine ⟨⟨c :: more, by simp [hm], ?_⟩, r3, hd, ?_⟩
  · intro x hx
    rcases List.mem_cons.mp hx with rfl | hx
    · exact hc
    · exact hall x hx
  · exact ⟨hr.1.trans h3.1, hr.2.1.trans h3.2.1, hr.2.2.1.trans h3.2.2.1,
      hr.2.2.2.trans h3.2.2.2⟩

theorem configureBranch_extends (env : GistGitEnv) (dir : String) (r : Repository)
    (calls : List GitCall) : (configureBranch env dir r calls).extends r calls := by
  apply extends_step _ r r calls (GitCall.Branch "master") rfl (sameContent_refl r)
  unfold configureBranch
  simp only []
  split
  · exact extends_nil _ _ _ _ (sameContent_refl r)
  · split_ifs
    · exact extends_nil _ _ _ _ (sameContent_refl r)
    · apply extends_step _ r r _ (GitCall.CreateBranch ⟨"master", "origin", "refs/heads/master"⟩)
        rfl (sameContent_refl r)
      unfold repoCreateBranch
      split
      · rename_i e r2 heq
        split at heq
        · cases heq
          exact extends_nil _ _ _ _ (sameContent_refl _)
        · split_ifs at heq <;> cases heq
          exact extends_nil _ _ _ _ (sameContent_refl _)
      · rename_i r2 heq
        split at heq
        · cases heq
        · split_ifs at heq <;> cases heq
          exact extends_nil _ _ _ _ ⟨rfl, rfl, rfl, rfl⟩

theorem extends_of_sameContent (res : GitResult) (r r2 : Repository) (calls : List GitCall)
    (hr : r.sameContent r2) (h : res.extends r2 calls) : res.extends r calls := by
  obtain ⟨hcalls, r3, hd, h3⟩ := h
  exact ⟨hcalls, r3, hd, hr.1.trans h3.1, hr.2.1.trans h3.2.1, hr.2.2.1.trans h3.2.2.1,
    hr.2.2.2.trans h3.2.2.2⟩

theorem configureSetConfig_extends (env : GistGitEnv) (dir : String) (r : Repository)
    (rConfig : GitConfig) (rConfigChanged : Bool) (calls : List GitCall) :
    (configureSetConfig env dir r rConfig rConfigChanged calls).extends r calls := by
  unfold configureSetConfig
  split_ifs
  · apply extends_step _ r r calls (GitCall.SetConfig rConfig) rfl (sameContent_refl r)
    simp only []
    unfold repoSetConfig
    cases env.SetConfig with
    | some msg => exact extends_nil _ _ _ _ (sameContent_refl r)
    | none =>
      exact extends_of_sameContent _ r { r with Config := rConfig } _ ⟨rfl, rfl, rfl, rfl⟩
        (configureBranch_extends _ _ _ _)
  · exact configureBranch_extends _ _ _ _

theorem configureConfig_extends (env : GistGitEnv) (dir giturl : String) (r : Repository)
    (remote : Option RemoteConfig) (calls : List GitCall) :
    (configureConfig env dir giturl r remote calls).extends r calls := by
  apply extends_step _ r r calls GitCall.Config rfl (sameContent_refl r)
  unfold configureConfig
  simp only []
  split
  · exact extends_nil _ _ _ _ (sameContent_refl r)
  · split
    · exact extends_nil _ _ _ _ (sameContent_refl r)
    · exact configureSetConfig_extends _ _ _ _ _ _

theorem configureRemote_extends (env : GistGitEnv) (dir giturl : String) (r : Repository)
    (calls : List GitCall) : (configureRemote env dir giturl r calls).extends r calls := by
  apply extends_step _ r r calls (GitCall.Remote "origin") rfl (sameContent_refl r)
  unfold configureRemote
  simp only []
  split
  · exact configureConfig_extends _ _ _ _ _ _
  · split_ifs
    · apply extends_step _ r r _ (GitCall.CreateRemote ⟨"origin", [giturl]⟩) rfl
        (sameContent_refl r)
      have hsame : r.sameContent (repoCreateRemote env r ⟨"origin", [giturl]⟩).2.2 := by
        unfold repoCreateRemote
        split_ifs
        · exact sameContent_refl r
        · cases env.CreateRemote with
          | some msg => exact sameContent_refl r
          | none => exact ⟨rfl, rfl, rfl, rfl⟩
      exact extends_of_sameContent _ r _ _ hsame (configureConfig_extends _ _ _ _ _ _)
    · exact extends_nil _ _ _ _ (sameContent_refl r)

theorem configureGistGit_plain_calls (env : GistGitEnv) (files : Tree)
    (dir gistID username token : String) (hopen : env.PlainOpen = none) :
    ∃ more, (ConfigureGistGit env (DirState.plain files) dir gistID username token).calls =
        [GitCall.PlainOpen dir, GitCall.Stat dir, GitCall.PlainInit dir] ++ more ∧
      ∀ c ∈ more, c.isReconcile = true := by
  unfold ConfigureGistGit gitPlainOpen
  simp only [hopen, dirIsNotExist, if_true, Bool.false_eq_true, if_false]
  split
  · exact ⟨[], by simp, by simp⟩
  · exact (configureRemote_extends _ _ _ _ _).1

theorem configureGistGit_repo_calls (env : GistGitEnv) (r : Repository)
    (dir gistID username token : String) (hopen : env.PlainOpen = none) :
    ∃ more, (ConfigureGistGit env (DirState.repo r) dir gistID username token).calls =
        [GitCall.PlainOpen dir] ++ more ∧
      ∀ c ∈ more, c.isReconcile = true := by
  unfold ConfigureGistGit gitPlainOpen
  simp only [hopen]
  exact (configureRemote_extends _ _ _ _ _).1

/-! ## Deployment: lemmas -/

theorem treeGet_erase (t : Tree) (p q : String) :
    treeGet (treeErase t p) q = if q = p then none else treeGet t q := by
  induction t with
  | nil => simp [treeErase, treeGet]
  | cons e t ih =>
    obtain ⟨k, v⟩ := e
    unfold treeErase at ih ⊢
    by_cases hk : k = p
    · subst hk
      simp only [ne_eq, not_true_eq_false, decide_False, Bool.false_eq_true, not_false_eq_true,
        List.filter_cons_of_neg, ih, treeGet]
      by_cases hq : q = k
      · simp [hq]
      · have : ¬ k = q := fun h => hq h.symm
        simp [hq, this]
    · rw [List.filter_cons_of_pos (by simpa using hk)]
      simp only [treeGet, ih]
      by_cases hq : k = q
      · subst hq
        simp [hk]
      · simp [hq]

theorem treeGet_append (a b : Tree) (q : String) :
    treeGet (a ++ b) q = (treeGet a q).orElse (fun _ => treeGet b q) := by
  induction a with
  | nil => simp [treeGet]
  | cons e a ih =>
    obtain ⟨k, v⟩ := e
    by_cases hk : k = q
    · simp [treeGet, hk]
    · simp [treeGet, hk, ih]

theorem treeGet_filter (t : Tree) (f : String → Bool) (q : String) :
    treeGet (t.filter (fun e => f e.1)) q = if f q then treeGet t q else none := by
  induction t with
  | nil => simp [treeGet]
  | cons e t ih =>
    obtain ⟨k, v⟩ := e
    by_cases hf : f k = true
    · rw [List.filter_cons_of_pos (by simpa using hf)]
      by_cases hk : k = q
      · subst hk
        simp [treeGet, hf]
      · simp [treeGet, hk, ih]
    · rw [List.filter_cons_of_neg (by simpa using hf)]
      by_cases hk : k = q
      · subst hk
        simp [treeGet, ih, hf]
      · simp [treeGet, hk, ih]

theorem mem_paths_of_treeGet (t : Tree) (q v : String) (h : treeGet t q = some v) :
    q ∈ t.map Prod.fst := by
  induction t with
  | nil => simp [treeGet] at h
  | cons e t ih =>
    obtain ⟨k, w⟩ := e
    by_cases hk : k = q
    · simp [hk]
    · simp only [treeGet, hk, if_false] at h
      simp [ih h]

theorem markedDeleted_cons (p : String) (s : FileStatus) (rest : Status) (q : String) :
    markedDeleted ((p, s) :: rest) q =
      (decide (p = q) && decide (s.Worktree = StatusCode.Deleted) || markedDeleted rest q) := by
  simp [markedDeleted]

theorem removeDeleted_ok (env : DeployEnv) (hrm : ∀ p, env.Remove p = none)
    (status : Status) (r : Repository) (calls : List GitCall) :
    ∃ r2 calls2, removeDeleted env status r calls = (none, r2, calls2) ∧
      r2.Config = r.Config ∧ r2.Commits = r.Commits ∧ r2.Pushed = r.Pushed ∧
      (∀ q, treeGet r2.Index q =
        if markedDeleted status q then none else treeGet r.Index q) ∧
      (∀ q, treeGet r2.Worktree q =
        if markedDeleted status q then none else treeGet r.Worktree q) := by
  induction status generalizing r calls with
  | nil => exact ⟨r, calls, rfl, rfl, rfl, rfl, by simp [markedDeleted], by simp [markedDeleted]⟩
  | cons e rest ih =>
    obtain ⟨p, s⟩ := e
    by_cases hs : s.Worktree = StatusCode.Deleted
    · obtain ⟨r2, calls2, hrun, hc, hco, hp, hi, hw⟩ :=
        ih { r with Index := treeErase r.Index p, Worktree := treeErase r.Worktree p }
          (calls ++ [GitCall.Remove p])
      have key : ∀ (t : Tree) (q : String),
          (if markedDeleted rest q then none else treeGet (treeErase t p) q) =
            if markedDeleted ((p, s) :: rest) q then none else treeGet t q := by
        intro t q
        rw [markedDeleted_cons, treeGet_erase]
        by_cases hq : q = p
        · subst hq
          simp [hs]
        · have hpq : decide (p = q) = false := by
            simpa using fun h : p = q => hq h.symm
          rw [hpq, if_neg hq]
          simp
      refine ⟨r2, calls2, ?_, hc, hco, hp, ?_, ?_⟩
      · simp only [removeDeleted, hs, if_true, worktreeRemove, hrm]
        exact hrun
      · intro q
        rw [hi q]
        exact key r.Index q
      · intro q
        rw [hw q]
        exact key r.Worktree q
    · obtain ⟨r2, calls2, hrun, hc, hco, hp, hi, hw⟩ := ih r calls
      have hd : decide (s.Worktree = StatusCode.Deleted) = false := by simpa using hs
      refine ⟨r2, calls2, ?_, hc, hco, hp, ?_, ?_⟩
      · simp only [removeDeleted, hs, if_false]
        exact hrun
      · intro q
        rw [hi q, markedDeleted_cons, hd]
        simp
      · intro q
        rw [hw q, markedDeleted_cons, hd]
        simp

theorem isClean_of_agree (r : Repository) (hhead : r.HeadTree = r.Index)
    (hagree : ∀ p, treeGet r.Index p = treeGet r.Worktree p) :
    Status.IsClean ((statusPaths r).map (fun p => (p, fileStatus r p))) = true := by
  unfold Status.IsClean
  rw [List.all_eq_true]
  intro e he
  obtain ⟨p, _, rfl⟩ := List.mem_map.mp he
  simp only [fileStatus, hhead, ← hagree p]
  cases treeGet r.Index p <;> simp [stagingCode, worktreeCode]

theorem markedDeleted_of_missing (r : Repository) (q v : String)
    (hi : treeGet r.Index q = some v) (hw : treeGet r.Worktree q = none) :
    markedDeleted ((statusPaths r).map (fun p => (p, fileStatus r p))) q = true := by
  unfold markedDeleted
  rw [List.any_eq_true]
  refine ⟨(q, fileStatus r q), ?_, ?_⟩
  · apply List.mem_map.mpr
    refine ⟨q, ?_, rfl⟩
    unfold statusPaths
    rw [List.mem_dedup]
    simp only [List.mem_append]
    exact Or.inl (Or.inr (mem_paths_of_treeGet _ _ _ hi))
  · simp [fileStatus, hi, hw, worktreeCode]

/-- After the removals, `AddGlob` and the commit, with no failure, the last
commit, the index and the working tree agree on every path. -/
theorem deploy_commit_state (env : DeployEnv) (r : Repository) (calls : List GitCall)
    (hrm : ∀ p, env.Remove p = none) :
    ∃ r2 calls2,
      removeDeleted env ((statusPaths r).map (fun p => (p, fileStatus r p))) r calls =
        (none, r2, calls2) ∧
      r2.Config = r.Config ∧ r2.Commits = r.Commits ∧ r2.Pushed = r.Pushed ∧
      ∀ p, treeGet (r2.Worktree ++ r2.Index.filter (fun e => (treeGet r2.Worktree e.1).isNone)) p =
        treeGet r2.Worktree p := by
  obtain ⟨r2, calls2, hrun, hc, hco, hp, hi, hw⟩ :=
    removeDeleted_ok env hrm ((statusPaths r).map (fun p => (p, fileStatus r p))) r calls
  refine ⟨r2, calls2, hrun, hc, hco, hp, ?_⟩
  intro p
  rw [treeGet_append, treeGet_filter r2.Index (fun k => (treeGet r2.Worktree k).isNone) p]
  cases hwp : treeGet r2.Worktree p with
  | some v => simp
  | none =>
    simp only [Option.orElse, Option.isNone_none, if_true]
    rw [hi p]
    by_cases hm : markedDeleted ((statusPaths r).map (fun p => (p, fileStatus r p))) p = true
    · simp [hm]
    · rw [if_neg hm]
      have hw2 := hw p
      rw [hwp, if_neg hm] at hw2
      cases hip : treeGet r.Index p with
      | none => rfl
      | some v => exact absurd (markedDeleted_of_missing r p v hip hw2.symm) hm

/-! ## Reconciliation and deployment: claims -/

/-- C8, as stated, fails: on a directory that exists and holds a file but no
repository, with no library call failing, `ConfigureGistGit` returns a nil
error after `PlainInit`, and the directory holds a repository. -/
theorem existing_directory_is_initialised_counterexample :
    ConfigureGistGit gistGitNoFaults (DirState.plain [("x", "1")]) "users" "g" "u" "t" =
      ⟨Outcome.returned none,
        DirState.repo
          { Config :=
              { User := ⟨"gdir", "gdir@gmail.com"⟩
                Remotes := [⟨"origin", ["https://u:t@gist.github.com/g.git"]⟩]
                Branches := [⟨"master", "origin", "refs/heads/master"⟩] }
            Commits := [], Index := [], Worktree := [("x", "1")], Pushed := [] },
        [GitCall.PlainOpen "users", GitCall.Stat "users", GitCall.PlainInit "users",
          GitCall.Remote "origin",
          GitCall.CreateRemote ⟨"origin", ["https://u:t@gist.github.com/g.git"]⟩,
          GitCall.Config,
          GitCall.SetConfig
            { User := ⟨"gdir", "gdir@gmail.com"⟩
              Remotes := [⟨"origin", ["https://u:t@gist.github.com/g.git"]⟩]
              Branches := [] },
          GitCall.Branch "master",
          GitCall.CreateBranch ⟨"master", "origin", "refs/heads/master"⟩]⟩ := by
  decide

/-- C8, amended. On a directory that exists without a repository (the open
reports "no repository"), `ConfigureGistGit` calls `PlainInit` there right
after the open and the stat, and then only reconciliation calls, never a
clone; it returns the wrapped error of `PlainInit` when that fails, leaving
the directory as it was; otherwise the directory holds a repository around
the same files, and when no later call fails the result is a nil error with
the fixed author, the remote "origin" at the gist URL and the branch
"master".  A clone happens for an absent directory only. -/
theorem existing_directory_is_initialised (env : GistGitEnv) (files : Tree)
    (dir gistID username token : String) (hopen : env.PlainOpen = none) :
    (∃ more, (ConfigureGistGit env (DirState.plain files) dir gistID username token).calls =
        [GitCall.PlainOpen dir, GitCall.Stat dir, GitCall.PlainInit dir] ++ more ∧
      ∀ c ∈ more, c.isReconcile = true) ∧
    (∀ msg, env.PlainInit = some msg →
      ConfigureGistGit env (DirState.plain files) dir gistID username token =
        ⟨Outcome.returned
            (some (GoError.wrap ("failed to init repo " ++ dir) (GoError.other msg))),
          DirState.plain files,
          [GitCall.PlainOpen dir, GitCall.Stat dir, GitCall.PlainInit dir]⟩) ∧
    (env.PlainInit = none →
      ∃ r, (ConfigureGistGit env (DirState.plain files) dir gistID username token).dir =
          DirState.repo r ∧
        r.Commits = [] ∧ r.Index = [] ∧ r.Worktree = files ∧ r.Pushed = []) ∧
    (env.PlainInit = none → env.Remote = none → env.CreateRemote = none →
      env.Config = none → env.SetConfig = none → env.Branch = none →
      env.CreateBranch = none →
      (ConfigureGistGit env (DirState.plain files) dir gistID username token).outcome =
          Outcome.returned none ∧
        (ConfigureGistGit env (DirState.plain files) dir gistID username token).dir =
          DirState.repo
            { Config :=
                { User := ⟨gitUser, gitEmail⟩
                  Remotes := [⟨"origin", [gistURL gistID username token]⟩]
                  Branches := [⟨"master", "origin", "refs/heads/master"⟩] }
              Commits := [], Index := [], Worktree := files, Pushed := [] }) ∧
    (∀ (st : DirState) (url : String),
      GitCall.PlainClone dir url ∈
          (ConfigureGistGit env st dir gistID username token).calls →
        st = DirState.absent) ∧
    (ConfigureGistGit env DirState.absent dir gistID username token).calls.take 3 =
      [GitCall.PlainOpen dir, GitCall.Stat dir,
        GitCall.PlainClone dir (gistURL gistID username token)] := by
  refine ⟨configureGistGit_plain_calls env files dir gistID username token hopen, ?_, ?_, ?_,
    ?_, ?_⟩
  · intro msg hinit
    simp [ConfigureGistGit, gitPlainOpen, hopen, dirIsNotExist, gitPlainInit, hinit]
  · intro hinit
    have h := (configureRemote_extends env dir (gistURL gistID username token)
      { Config := { User := ⟨"", ""⟩, Remotes := [], Branches := [] }
        Commits := [], Index := [], Worktree := files, Pushed := [] }
      [GitCall.PlainOpen dir, GitCall.Stat dir, GitCall.PlainInit dir]).2
    obtain ⟨r2, hd, hs⟩ := h
    refine ⟨r2, ?_, hs.1.symm, hs.2.1.symm, hs.2.2.1.symm, hs.2.2.2.symm⟩
    rw [← hd]
    simp [ConfigureGistGit, gitPlainOpen, hopen, dirIsNotExist, gitPlainInit, hinit]
  · intro hinit hremote hcreate hconfig hset hbranch hcb
    simp [ConfigureGistGit, gitPlainOpen, hopen, dirIsNotExist, gitPlainInit, hinit,
      configureRemote, repoRemote, hremote, repoCreateRemote, hcreate, configureConfig,
      repoConfig, hconfig, enforceAuthor, enforceRemoteURL, configureSetConfig,
      repoSetConfig, hset, configureBranch, repoBranch, hbranch, repoCreateBranch, hcb,
      gitUser, gitEmail]
  · intro st url hmem
    cases st with
    | absent => rfl
    | plain files2 =>
      obtain ⟨more, hc, hall⟩ :=
        configureGistGit_plain_calls env files2 dir gistID username token hopen
      rw [hc] at hmem
      simp only [List.mem_append, List.mem_cons, List.mem_singleton, List.not_mem_nil,
        or_false] at hmem
      rcases hmem with (h | h | h) | h
      · cases h
      · cases h
      · cases h
      · have := hall _ h
        simp [GitCall.isReconcile] at this
    | repo r =>
      obtain ⟨more, hc, hall⟩ :=
        configureGistGit_repo_calls env r dir gistID username token hopen
      rw [hc] at hmem
      simp only [List.mem_append, List.mem_cons, List.mem_singleton, List.not_mem_nil,
        or_false] at hmem
      rcases hmem with h | h
      · cases h
      · have := hall _ h
        simp [GitCall.isReconcile] at this
  · unfold ConfigureGistGit gitPlainOpen
    simp only [hopen, dirIsNotExist, if_true]
    split
    · rfl
    · obtain ⟨more, hc, _⟩ := (configureRemote_extends env dir
        (gistURL gistID username token) _
        [GitCall.PlainOpen dir, GitCall.Stat dir,
          GitCall.PlainClone dir (gistURL gistID username token)]).1
      rw [hc]
      rfl

/-- C8 amended, on a directory holding one file, with no call failing. -/
theorem existing_directory_is_initialised_witness :
    (ConfigureGistGit gistGitNoFaults (DirState.plain [("x", "1")]) "users" "g" "u" "t").outcome =
        Outcome.returned none ∧
      (ConfigureGistGit gistGitNoFaults (DirState.plain [("x", "1")]) "users" "g" "u" "t").dir =
        DirState.repo
          { Config :=
              { User := ⟨gitUser, gitEmail⟩
                Remotes := [⟨"origin", [gistURL "g" "u" "t"]⟩]
                Branches := [⟨"master", "origin", "refs/heads/master"⟩] }
            Commits := [], Index := [], Worktree := [("x", "1")], Pushed := [] } :=
  (existing_directory_is_initialised gistGitNoFaults [("x", "1")] "users" "g" "u" "t"
    rfl).2.2.2.1 rfl rfl rfl rfl rfl rfl rfl

/-- C9, the code at a reconciled repository with one changed file: the
commit `DeployGist` creates is authored by "gdir" with email
"gdir@mail.com", while `ConfigureGistGit` keeps "gdir" with email
"gdir@gmail.com" in the configuration of the same repository; the names
agree and the emails differ, at any time of the clock. -/
theorem deploy_author_differs_from_configured :
    (ConfigureGistGit gistGitNoFaults (DirState.repo dirtyRepo) "users" "g" "u" "t").outcome =
        Outcome.returned none ∧
      (ConfigureGistGit gistGitNoFaults (DirState.repo dirtyRepo) "users" "g" "u" "t").dir =
        DirState.repo dirtyRepo ∧
      dirtyRepo.Config.User = ⟨"gdir", "gdir@gmail.com"⟩ ∧
      (DeployGist (deployNoFaults 5) (DirState.repo dirtyRepo) "users").outcome =
        Outcome.returned none ∧
      (DeployGist (deployNoFaults 5) (DirState.repo dirtyRepo) "users").dir =
        DirState.repo
          { dirtyRepo with
            Commits :=
              ⟨"[gdir] deploy", ⟨"gdir", "gdir@mail.com", 5⟩, [("a.json", "v2")]⟩ ::
                dirtyRepo.Commits
            Index := [("a.json", "v2")]
            Pushed :=
              ⟨"[gdir] deploy", ⟨"gdir", "gdir@mail.com", 5⟩, [("a.json", "v2")]⟩ ::
                dirtyRepo.Commits } ∧
      (∀ now : Nat, (deployAuthor now).Name = gitUser ∧ (deployAuthor now).Email ≠ gitEmail) := by
  refine ⟨by decide, by decide, by decide, by decide, by decide, ?_⟩
  intro now
  exact ⟨rfl, by simp [deployAuthor, gitEmail]⟩

/-- C10, as stated, fails: after a deploy whose push failed, the commit is
in the local repository and not on the remote, and a second `DeployGist` on
the unchanged directory returns a nil error after the status call, without a
push, leaving the remote as it was. -/
theorem retry_after_failed_push_counterexample :
    (DeployGist (deployPushFails 5 "net") (DirState.repo dirtyRepo) "users").outcome =
        Outcome.returned
          (some (GoError.wrap "failed to push to repo users" (GoError.other "net"))) ∧
      (DeployGist (deployPushFails 5 "net") (DirState.repo dirtyRepo) "users").dir =
        DirState.repo
          { dirtyRepo with
            Commits :=
              ⟨"[gdir] deploy", ⟨"gdir", "gdir@mail.com", 5⟩, [("a.json", "v2")]⟩ ::
                dirtyRepo.Commits
            Index := [("a.json", "v2")] } ∧
      DeployGist (deployNoFaults 6)
          (DeployGist (deployPushFails 5 "net") (DirState.repo dirtyRepo) "users").dir "users" =
        ⟨Outcome.returned none,
          (DeployGist (deployPushFails 5 "net") (DirState.repo dirtyRepo) "users").dir,
          [GitCall.PlainOpen "users", GitCall.Worktree, GitCall.Status]⟩ ∧
      GitCall.Push true ∉
        (DeployGist (deployNoFaults 6)
          (DeployGist (deployPushFails 5 "net") (DirState.repo dirtyRepo) "users").dir
          "users").calls := by
  refine ⟨by decide, by decide, by decide, by decide⟩

/-- C10, amended. When a deploy reaches the push (the status is not clean
and no earlier call fails) and the push fails, `DeployGist` returns the
wrapped push error, the new commit is on top of the local branch and the
remote is as before; a second `DeployGist` on that repository, whose open,
worktree and status calls succeed, finds the status clean and returns a nil
error after those three calls, with no push and no change. -/
theorem failed_push_keeps_commit_retry_is_clean (env env2 : DeployEnv) (r : Repository)
    (dir msg : String)
    (hopen : env.PlainOpen = none) (hwt : env.Worktree = none) (hst : env.Status = none)
    (hrm : ∀ p, env.Remove p = none) (hadd : env.AddGlob = none)
    (hcommit : env.Commit = none) (hpush : env.Push = some msg)
    (hdirty : Status.IsClean ((statusPaths r).map (fun p => (p, fileStatus r p))) = false)
    (hopen2 : env2.PlainOpen = none) (hwt2 : env2.Worktree = none)
    (hst2 : env2.Status = none) :
    (DeployGist env (DirState.repo r) dir).outcome =
        Outcome.returned
          (some (GoError.wrap ("failed to push to repo " ++ dir) (GoError.other msg))) ∧
      (DeployGist env (DirState.repo r) dir).calls.getLast? = some (GitCall.Push true) ∧
      ∃ r1, (DeployGist env (DirState.repo r) dir).dir = DirState.repo r1 ∧
        r1.Commits = ⟨"[gdir] deploy", deployAuthor env.Now, r1.Index⟩ :: r.Commits ∧
        r1.Pushed = r.Pushed ∧
        DeployGist env2 (DirState.repo r1) dir =
          ⟨Outcome.returned none, DirState.repo r1,
            [GitCall.PlainOpen dir, GitCall.Worktree, GitCall.Status]⟩ := by
  obtain ⟨r2, calls2, hrun, _, hco, hp, hagree⟩ :=
    deploy_commit_state env r [GitCall.PlainOpen dir, GitCall.Worktree, GitCall.Status] hrm
  have hfirst : DeployGist env (DirState.repo r) dir =
      ⟨Outcome.returned
          (some (GoError.wrap ("failed to push to repo " ++ dir) (GoError.other msg))),
        DirState.repo
          { r2 with
            Index := r2.Worktree ++ r2.Index.filter (fun e => (treeGet r2.Worktree e.1).isNone)
            Commits :=
              ⟨"[gdir] deploy", deployAuthor env.Now,
                r2.Worktree ++ r2.Index.filter (fun e => (treeGet r2.Worktree e.1).isNone)⟩ ::
                r2.Commits },
        calls2 ++ [GitCall.AddGlob "."] ++
          [GitCall.Commit "[gdir] deploy" (deployAuthor env.Now)] ++ [GitCall.Push true]⟩ := by
    unfold DeployGist
    simp only [gitPlainOpen, hopen, hwt, worktreeStatus, hst, hdirty, hrun, worktreeAddGlob,
      hadd, worktreeCommit, hcommit, repoPush, hpush, Bool.false_eq_true, if_false]
  rw [hfirst]
  refine ⟨rfl, by simp, _, rfl, by simp [hco], hp, ?_⟩
  unfold DeployGist
  simp only [gitPlainOpen, hopen2, hwt2, worktreeStatus, hst2]
  rw [isClean_of_agree _ rfl hagree]
  simp

/-- C10 amended, on the repository with one changed file. -/
theorem failed_push_keeps_commit_retry_is_clean_witness :
    (DeployGist (deployPushFails 5 "net") (DirState.repo dirtyRepo) "users").outcome =
        Outcome.returned
          (some (GoError.wrap ("failed to push to repo " ++ "users") (GoError.other "net"))) ∧
      (DeployGist (deployPushFails 5 "net") (DirState.repo dirtyRepo) "users").calls.getLast? =
        some (GitCall.Push true) :=
  ⟨(failed_push_keeps_commit_retry_is_clean (deployPushFails 5 "net") (deployNoFaults 6)
      dirtyRepo "users" "net" rfl rfl rfl (fun _ => rfl) rfl rfl rfl (by decide) rfl rfl
      rfl).1,
   by decide⟩

/-! ## Deployment: further lemmas -/

theorem removeDeleted_calls (env : DeployEnv) (hrm : ∀ p, env.Remove p = none)
    (status : Status) (r : Repository) (calls : List GitCall) :
    (removeDeleted env status r calls).2.2 =
      calls ++ (status.filter (fun e => decide (e.2.Worktree = StatusCode.Deleted))).map
        (fun e => GitCall.Remove e.1) := by
  induction status generalizing r calls with
  | nil => simp [removeDeleted]
  | cons e rest ih =>
    obtain ⟨p, s⟩ := e
    by_cases hs : s.Worktree = StatusCode.Deleted
    · simp only [removeDeleted, hs, if_true, worktreeRemove, hrm, ih, decide_True,
        List.filter_cons_of_pos, List.map_cons, List.append_assoc, List.singleton_append]
    · simp only [removeDeleted, hs, if_false, ih]
      rw [List.filter_cons_of_neg (by simpa using hs)]

theorem worktree_none_of_markedDeleted (r : Repository) (q : String)
    (h : markedDeleted ((statusPaths r).map (fun p => (p, fileStatus r p))) q = true) :
    treeGet r.Worktree q = none := by
  unfold markedDeleted at h
  rw [List.any_eq_true] at h
  obtain ⟨e, he, hq⟩ := h
  obtain ⟨p, _, rfl⟩ := List.mem_map.mp he
  simp only [Bool.and_eq_true, decide_eq_true_eq] at hq
  obtain ⟨hp, hd⟩ := hq
  subst hp
  simp only [fileStatus, worktreeCode] at hd
  cases hw : treeGet r.Worktree p with
  | none => rfl
  | some w =>
    rw [hw] at hd
    cases hi : treeGet r.Index p with
    | none => rw [hi] at hd; cases hd
    | some v =>
      rw [hi] at hd
      simp only [] at hd
      split_ifs at hd

/-- The whole of a deploy on a dirty tree when no call fails. -/
theorem deployGist_dirty_ok (env : DeployEnv) (r : Repository) (dir : String)
    (hopen : env.PlainOpen = none) (hwt : env.Worktree = none) (hst : env.Status = none)
    (hrm : ∀ p, env.Remove p = none) (hadd : env.AddGlob = none)
    (hcommit : env.Commit = none) (hpush : env.Push = none)
    (hdirty : Status.IsClean ((statusPaths r).map (fun p => (p, fileStatus r p))) = false) :
    ∃ r1, DeployGist env (DirState.repo r) dir =
        ⟨Outcome.returned none, DirState.repo r1,
          [GitCall.PlainOpen dir, GitCall.Worktree, GitCall.Status] ++
            (((statusPaths r).map (fun p => (p, fileStatus r p))).filter
              (fun e => decide (e.2.Worktree = StatusCode.Deleted))).map
              (fun e => GitCall.Remove e.1) ++
            [GitCall.AddGlob ".", GitCall.Commit "[gdir] deploy" (deployAuthor env.Now),
              GitCall.Push true]⟩ ∧
      r1.Commits = ⟨"[gdir] deploy", deployAuthor env.Now, r1.Index⟩ :: r.Commits ∧
      r1.Pushed = r1.Commits ∧ r1.Config = r.Config ∧
      (∀ p, treeGet r1.Index p = treeGet r.Worktree p) ∧
      (∀ p, treeGet r1.Worktree p = treeGet r.Worktree p) := by
  obtain ⟨r2, calls2, hrun, hc, hco, hp, hi, hw⟩ :=
    removeDeleted_ok env hrm ((statusPaths r).map (fun p => (p, fileStatus r p))) r
      [GitCall.PlainOpen dir, GitCall.Worktree, GitCall.Status]
  obtain ⟨r3, calls3, hrun3, _, _, _, hagree⟩ :=
    deploy_commit_state env r [GitCall.PlainOpen dir, GitCall.Worktree, GitCall.Status] hrm
  rw [hrun] at hrun3
  cases hrun3
  have hcalls := removeDeleted_calls env hrm
    ((statusPaths r).map (fun p => (p, fileStatus r p))) r
    [GitCall.PlainOpen dir, GitCall.Worktree, GitCall.Status]
  rw [hrun] at hcalls
  simp only [] at hcalls
  have hwsame : ∀ q, treeGet r2.Worktree q = treeGet r.Worktree q := by
    intro q
    rw [hw q]
    by_cases hm : markedDeleted ((statusPaths r).map (fun p => (p, fileStatus r p))) q = true
    · rw [if_pos hm, worktree_none_of_markedDeleted r q hm]
    · rw [if_neg hm]
  refine ⟨{ r2 with
      Index := r2.Worktree ++ r2.Index.filter (fun e => (treeGet r2.Worktree e.1).isNone)
      Commits :=
        ⟨"[gdir] deploy", deployAuthor env.Now,
          r2.Worktree ++ r2.Index.filter (fun e => (treeGet r2.Worktree e.1).isNone)⟩ ::
          r2.Commits
      Pushed :=
        ⟨"[gdir] deploy", deployAuthor env.Now,
          r2.Worktree ++ r2.Index.filter (fun e => (treeGet r2.Worktree e.1).isNone)⟩ ::
          r2.Commits }, ?_, ?_, rfl, hc, ?_, hwsame⟩
  · unfold DeployGist
    simp only [gitPlainOpen, hopen, hwt, worktreeStatus, hst, hdirty, hrun, worktreeAddGlob,
      hadd, worktreeCommit, hcommit, repoPush, hpush, Bool.false_eq_true, if_false, hcalls,
      List.append_assoc, List.cons_append, List.nil_append]
  · simp [hco]
  · intro q
    simp only []
    rw [hagree q, hwsame q]

theorem removes_by_path (r : Repository) :
    (((statusPaths r).map (fun p => (p, fileStatus r p))).filter
        (fun e => decide (e.2.Worktree = StatusCode.Deleted))).map
        (fun e => GitCall.Remove e.1) =
      ((statusPaths r).filter
        (fun p => decide ((fileStatus r p).Worktree = StatusCode.Deleted))).map
        GitCall.Remove := by
  rw [List.filter_map, List.map_map]
  rfl

/-! ## Deployment: further claims -/

/-- C15. On a repository whose status is clean (the open, the worktree and
the status calls succeed), `DeployGist` returns a nil error after exactly
those three calls and leaves the repository as it is: no removal, no
staging, no commit and no push. -/
theorem deploy_on_clean_tree_does_nothing (env : DeployEnv) (r : Repository) (dir : String)
    (hopen : env.PlainOpen = none) (hwt : env.Worktree = none) (hst : env.Status = none)
    (hclean : Status.IsClean ((statusPaths r).map (fun p => (p, fileStatus r p))) = true) :
    DeployGist env (DirState.repo r) dir =
        ⟨Outcome.returned none, DirState.repo r,
          [GitCall.PlainOpen dir, GitCall.Worktree, GitCall.Status]⟩ ∧
      (∀ path, GitCall.Remove path ∉ (DeployGist env (DirState.repo r) dir).calls) ∧
      (∀ pattern, GitCall.AddGlob pattern ∉ (DeployGist env (DirState.repo r) dir).calls) ∧
      (∀ msg author,
        GitCall.Commit msg author ∉ (DeployGist env (DirState.repo r) dir).calls) ∧
      (∀ force, GitCall.Push force ∉ (DeployGist env (DirState.repo r) dir).calls) := by
  have h : DeployGist env (DirState.repo r) dir =
      ⟨Outcome.returned none, DirState.repo r,
        [GitCall.PlainOpen dir, GitCall.Worktree, GitCall.Status]⟩ := by
    unfold DeployGist
    simp only [gitPlainOpen, hopen, hwt, worktreeStatus, hst, hclean, if_true]
  rw [h]
  refine ⟨rfl, ?_, ?_, ?_, ?_⟩ <;> intros <;> simp

/-- C15, on a repository with one committed file and nothing changed. -/
theorem deploy_on_clean_tree_does_nothing_witness :
    DeployGist (deployNoFaults 5) (DirState.repo cleanRepo) "users" =
      ⟨Outcome.returned none, DirState.repo cleanRepo,
        [GitCall.PlainOpen "users", GitCall.Worktree, GitCall.Status]⟩ :=
  (deploy_on_clean_tree_does_nothing (deployNoFaults 5) cleanRepo "users" rfl rfl rfl
    (by decide)).1

/-- C16. On a repository whose status is not clean, when no call fails,
`DeployGist` returns a nil error after these calls in this order: the open,
the worktree and the status, then one `Remove` for each path whose worktree
status is `Deleted` and for no other path, then `AddGlob(".")`, then one
commit with message "[gdir] deploy", then the push with `Force = true`.  The
commit is on top of the branch and pushed, its tree is the index, which holds
exactly the files of the working tree; so a path of the index with no file
on disk is removed and absent from the tree of the commit. -/
theorem deploy_stages_deletions_commits_and_pushes (env : DeployEnv) (r : Repository)
    (dir : String)
    (hopen : env.PlainOpen = none) (hwt : env.Worktree = none) (hst : env.Status = none)
    (hrm : ∀ p, env.Remove p = none) (hadd : env.AddGlob = none)
    (hcommit : env.Commit = none) (hpush : env.Push = none)
    (hdirty : Status.IsClean ((statusPaths r).map (fun p => (p, fileStatus r p))) = false) :
    (DeployGist env (DirState.repo r) dir).outcome = Outcome.returned none ∧
      (DeployGist env (DirState.repo r) dir).calls =
        [GitCall.PlainOpen dir, GitCall.Worktree, GitCall.Status] ++
          ((statusPaths r).filter
            (fun p => decide ((fileStatus r p).Worktree = StatusCode.Deleted))).map
            GitCall.Remove ++
          [GitCall.AddGlob ".", GitCall.Commit "[gdir] deploy" (deployAuthor env.Now),
            GitCall.Push true] ∧
      ∃ r1, (DeployGist env (DirState.repo r) dir).dir = DirState.repo r1 ∧
        r1.Commits = ⟨"[gdir] deploy", deployAuthor env.Now, r1.Index⟩ :: r.Commits ∧
        r1.Pushed = r1.Commits ∧
        (∀ p, treeGet r1.Index p = treeGet r.Worktree p) ∧
        (∀ p v, treeGet r.Index p = some v → treeGet r.Worktree p = none →
          (fileStatus r p).Worktree = StatusCode.Deleted ∧
            GitCall.Remove p ∈ (DeployGist env (DirState.repo r) dir).calls ∧
            treeGet r1.Index p = none) := by
  obtain ⟨r1, hrun, hco, hpu, _, hidx, _⟩ :=
    deployGist_dirty_ok env r dir hopen hwt hst hrm hadd hcommit hpush hdirty
  rw [hrun, removes_by_path]
  refine ⟨rfl, rfl, r1, rfl, hco, hpu, hidx, ?_⟩
  intro p v hi hw
  have hdel : (fileStatus r p).Worktree = StatusCode.Deleted := by
    simp [fileStatus, hi, hw, worktreeCode]
  refine ⟨hdel, ?_, ?_⟩
  · simp only [List.mem_append, List.mem_map, List.mem_filter, decide_eq_true_eq]
    refine Or.inl (Or.inr ⟨p, ⟨?_, hdel⟩, rfl⟩)
    unfold statusPaths
    rw [List.mem_dedup]
    simp only [List.mem_append]
    exact Or.inl (Or.inr (mem_paths_of_treeGet _ _ _ hi))
  · rw [hidx p, hw]

/-- C16, scenario of the specification: `b.json` is committed and deleted on
disk; the deploy removes it, stages, commits and pushes, and the tree of the
commit holds `a.json` only. -/
theorem deploy_stages_deletions_commits_and_pushes_witness :
    (DeployGist (deployNoFaults 5) (DirState.repo deletedFileRepo) "users").calls =
        [GitCall.PlainOpen "users", GitCall.Worktree, GitCall.Status,
          GitCall.Remove "b.json", GitCall.AddGlob ".",
          GitCall.Commit "[gdir] deploy" (deployAuthor 5), GitCall.Push true] ∧
      (DeployGist (deployNoFaults 5) (DirState.repo deletedFileRepo) "users").outcome =
        Outcome.returned none :=
  ⟨by decide,
   (deploy_stages_deletions_commits_and_pushes (deployNoFaults 5) deletedFileRepo "users"
      rfl rfl rfl (fun _ => rfl) rfl rfl rfl (by decide)).1⟩

/-! ## Reconciliation: postconditions -/

theorem configureBranch_success (env : GistGitEnv) (dir : String) (r : Repository)
    (calls : List GitCall)
    (h : (configureBranch env dir r calls).outcome = Outcome.returned none) :
    ∃ r2, (configureBranch env dir r calls).dir = DirState.repo r2 ∧
      r2.Config.User = r.Config.User ∧ r2.Config.Remotes = r.Config.Remotes ∧
      ((r.hasMaster = true ∧ r2 = r) ∨
        (r.hasMaster = false ∧
          r2.Config.Branches =
            r.Config.Branches ++ [⟨"master", "origin", "refs/heads/master"⟩])) := by
  unfold Repository.hasMaster
  cases hb : env.Branch <;>
    cases hany : r.Config.Branches.any (fun b => b.Name == "master") <;>
      cases hcb : env.CreateBranch <;>
        simp [configureBranch, repoBranch, repoCreateBranch, hb, hany, hcb] at h ⊢

theorem configureSetConfig_success (env : GistGitEnv) (dir : String) (r : Repository)
    (rConfig : GitConfig) (rConfigChanged : Bool) (calls : List GitCall)
    (h : (configureSetConfig env dir r rConfig rConfigChanged calls).outcome =
      Outcome.returned none) :
    ∃ r2, (configureSetConfig env dir r rConfig rConfigChanged calls).dir = DirState.repo r2 ∧
      r2.Config.User = (if rConfigChanged then rConfig else r.Config).User ∧
      r2.Config.Remotes = (if rConfigChanged then rConfig else r.Config).Remotes ∧
      (((if rConfigChanged then rConfig else r.Config).Branches.any
            (fun b => b.Name == "master") = true ∧
          r2.Config.Branches = (if rConfigChanged then rConfig else r.Config).Branches) ∨
        ((if rConfigChanged then rConfig else r.Config).Branches.any
            (fun b => b.Name == "master") = false ∧
          r2.Config.Branches =
            (if rConfigChanged then rConfig else r.Config).Branches ++
              [⟨"master", "origin", "refs/heads/master"⟩])) := by
  unfold configureSetConfig at h ⊢
  cases rConfigChanged with
  | false =>
    simp only [Bool.false_eq_true, if_false] at h ⊢
    obtain ⟨r2, hd, hu, hr, hb⟩ := configureBranch_success env dir r calls h
    refine ⟨r2, hd, hu, hr, ?_⟩
    rcases hb with ⟨hm, rfl⟩ | ⟨hm, hbr⟩
    · exact Or.inl ⟨hm, rfl⟩
    · exact Or.inr ⟨hm, hbr⟩
  | true =>
    simp only [if_true] at h ⊢
    unfold repoSetConfig at h ⊢
    cases hs : env.SetConfig with
    | some msg => simp [hs] at h
    | none =>
      simp only [hs] at h ⊢
      obtain ⟨r2, hd, hu, hr, hb⟩ := configureBranch_success env dir _ _ h
      refine ⟨r2, hd, hu, hr, ?_⟩
      rcases hb with ⟨hm, rfl⟩ | ⟨hm, hbr⟩
      · exact Or.inl ⟨hm, rfl⟩
      · exact Or.inr ⟨hm, hbr⟩

theorem enforceAuthor_user (cfg : GitConfig) :
    (enforceAuthor cfg).1.User = ⟨gitUser, gitEmail⟩ ∧
      (enforceAuthor cfg).1.Remotes = cfg.Remotes ∧
      (enforceAuthor cfg).1.Branches = cfg.Branches ∧
      ((enforceAuthor cfg).2 = false → cfg.User = ⟨gitUser, gitEmail⟩) := by
  obtain ⟨⟨name, email⟩, remotes, branches⟩ := cfg
  unfold enforceAuthor
  by_cases hn : name = gitUser <;> by_cases he : email = gitEmail <;> simp [hn, he]

theorem configureConfig_success (env : GistGitEnv) (dir giturl : String) (r : Repository)
    (remote : Option RemoteConfig) (calls : List GitCall)
    (h : (configureConfig env dir giturl r remote calls).outcome = Outcome.returned none) :
    ∃ rc r2, remote = some rc ∧
      (configureConfig env dir giturl r remote calls).dir = DirState.repo r2 ∧
      r2.Config.User = ⟨gitUser, gitEmail⟩ ∧
      r2.Config.Remotes =
        (if rc.URLs.length = 0 ∨ rc.URLs.head? ≠ some giturl then
          setRemote r.Config.Remotes { rc with URLs := [giturl] }
        else r.Config.Remotes) ∧
      ((r.hasMaster = true ∧ r2.Config.Branches = r.Config.Branches) ∨
        (r.hasMaster = false ∧
          r2.Config.Branches =
            r.Config.Branches ++ [⟨"master", "origin", "refs/heads/master"⟩])) := by
  unfold configureConfig at h ⊢
  unfold repoConfig at h ⊢
  cases hc : env.Config with
  | some msg => simp [hc] at h
  | none =>
    simp only [hc] at h ⊢
    cases remote with
    | none => simp at h
    | some rc =>
      simp only [] at h ⊢
      obtain ⟨r2, hd, hu, hr, hb⟩ := configureSetConfig_success _ _ _ _ _ _ h
      obtain ⟨hau, har, hab, haf⟩ := enforceAuthor_user r.Config
      refine ⟨rc, r2, rfl, hd, ?_, ?_, ?_⟩
      · rw [hu]
        unfold enforceRemoteURL
        by_cases hurl : rc.URLs.length = 0 ∨ rc.URLs.head? ≠ some giturl
        · simp only [hurl, if_true, hau]
        · simp only [hurl, if_false]
          cases h2 : (enforceAuthor r.Config).2 with
          | true => simp only [if_true, hau]
          | false => simp only [Bool.false_eq_true, if_false, haf h2]
      · rw [hr]
        unfold enforceRemoteURL
        by_cases hurl : rc.URLs.length = 0 ∨ rc.URLs.head? ≠ some giturl
        · simp only [hurl, if_true, har]
        · simp only [hurl, if_false]
          cases h2 : (enforceAuthor r.Config).2 with
          | true => simp only [if_true, har]
          | false => simp only [Bool.false_eq_true, if_false]
      · have hbr : (if (enforceRemoteURL (enforceAuthor r.Config).1 (enforceAuthor r.Config).2
            rc giturl).2 = true then
            (enforceRemoteURL (enforceAuthor r.Config).1 (enforceAuthor r.Config).2 rc giturl).1
            else r.Config).Branches = r.Config.Branches := by
          unfold enforceRemoteURL
          by_cases hurl : rc.URLs.length = 0 ∨ rc.URLs.head? ≠ some giturl
          · simp only [hurl, if_true, hab]
          · simp only [hurl, if_false]
            cases h2 : (enforceAuthor r.Config).2 with
            | true => simp only [if_true, hab]
            | false => simp only [Bool.false_eq_true, if_false]
        rw [hbr] at hb
        exact hb

theorem find_setRemote (remotes : List RemoteConfig) (rc c : RemoteConfig)
    (hname : c.Name = "origin")
    (hfind : remotes.find? (fun x => x.Name == "origin") = some rc) :
    (setRemote remotes c).find? (fun x => x.Name == "origin") = some c := by
  have hany : remotes.any (fun x => x.Name == c.Name) = true := by
    rw [List.any_eq_true]
    refine ⟨rc, List.mem_of_find?_eq_some hfind, ?_⟩
    have := List.find?_some hfind
    simpa [hname] using this
  unfold setRemote
  rw [if_pos hany, hname]
  clear hany
  induction remotes with
  | nil => simp at hfind
  | cons x rest ih =>
    by_cases hx : x.Name = "origin"
    · simp [hx, hname]
    · have hx2 : (x.Name == "origin") = false := by simpa using hx
      rw [List.find?_cons_of_neg _ (by simpa using hx)] at hfind
      simp only [List.map_cons, hx2, Bool.false_eq_true, if_false]
      rw [List.find?_cons_of_neg _ (by simpa using hx)]
      exact ih hfind

theorem configureRemote_success (env : GistGitEnv) (dir giturl : String) (r : Repository)
    (calls : List GitCall)
    (h : (configureRemote env dir giturl r calls).outcome = Outcome.returned none) :
    ∃ r2, (configureRemote env dir giturl r calls).dir = DirState.repo r2 ∧
      r2.Config.User = ⟨gitUser, gitEmail⟩ ∧
      ((∃ c, r2.origin = some c ∧ c.URLs.head? = some giturl ∧
          (c.URLs = [giturl] ∨ r.origin = some c)) ∨
        (r.origin = none ∧ env.CreateRemote ≠ none ∧ r2.origin = none)) ∧
      ((r.hasMaster = true ∧ r2.Config.Branches = r.Config.Branches) ∨
        (r.hasMaster = false ∧
          r2.Config.Branches =
            r.Config.Branches ++ [⟨"master", "origin", "refs/heads/master"⟩])) := by
  unfold configureRemote at h ⊢
  unfold repoRemote at h ⊢
  cases hr : env.Remote with
  | some msg => simp [hr] at h
  | none =>
    simp only [hr] at h ⊢
    cases hf : r.Config.Remotes.find? (fun c => c.Name == "origin") with
    | some rc =>
      simp only [hf] at h ⊢
      obtain ⟨rc2, r2, hrc, hd, hu, hrem, hb⟩ := configureConfig_success _ _ _ _ _ _ h
      cases hrc
      refine ⟨r2, hd, hu, Or.inl ?_, hb⟩
      by_cases hurl : rc.URLs.length = 0 ∨ rc.URLs.head? ≠ some giturl
      · rw [if_pos hurl] at hrem
        refine ⟨{ rc with URLs := [giturl] }, ?_, rfl, Or.inl rfl⟩
        unfold Repository.origin
        rw [hrem]
        apply find_setRemote _ rc
        · have := List.find?_some hf
          simpa using this
        · exact hf
      · rw [if_neg hurl] at hrem
        have hhead : rc.URLs.head? = some giturl := by
          by_contra hne
          exact hurl (Or.inr hne)
        refine ⟨rc, ?_, hhead, Or.inr hf⟩
        unfold Repository.origin
        rw [hrem]
        exact hf
    | none =>
      simp only [hf, if_true] at h ⊢
      have hany : r.Config.Remotes.any (fun x => x.Name == "origin") = false := by
        rw [Bool.eq_false_iff]
        intro hx
        rw [List.any_eq_true] at hx
        obtain ⟨x, hxm, hxp⟩ := hx
        exact (List.find?_eq_none.mp hf) x hxm hxp
      unfold repoCreateRemote at h ⊢
      simp only [hany, Bool.false_eq_true, if_false] at h ⊢
      cases hcr : env.CreateRemote with
      | some msg =>
        simp only [hcr] at h ⊢
        obtain ⟨rc2, r2, hrc, hd, hu, hrem, hb⟩ := configureConfig_success _ _ _ _ _ _ h
        cases hrc
        refine ⟨r2, hd, hu, Or.inr ⟨hf, by simp, ?_⟩, hb⟩
        unfold Repository.origin
        rw [hrem]
        simpa using hf
      | none =>
        simp only [hcr] at h ⊢
        obtain ⟨rc2, r2, hrc, hd, hu, hrem, hb⟩ := configureConfig_success _ _ _ _ _ _ h
        cases hrc
        refine ⟨r2, hd, hu, Or.inl ?_, hb⟩
        refine ⟨⟨"origin", [giturl]⟩, ?_, rfl, Or.inl rfl⟩
        unfold Repository.origin
        rw [hrem]
        simp [List.find?_append, hf]

theorem configureGistGit_success (env : GistGitEnv) (st : DirState)
    (dir gistID username token : String)
    (h : (ConfigureGistGit env st dir gistID username token).outcome = Outcome.returned none) :
    ∃ r0 r2, (ConfigureGistGit env st dir gistID username token).dir = DirState.repo r2 ∧
      r2.Config.User = ⟨gitUser, gitEmail⟩ ∧
      ((∃ c, r2.origin = some c ∧ c.URLs.head? = some (gistURL gistID username token) ∧
          (c.URLs = [gistURL gistID username token] ∨ r0.origin = some c)) ∨
        (r0.origin = none ∧ env.CreateRemote ≠ none ∧ r2.origin = none)) ∧
      ((r0.hasMaster = true ∧ r2.Config.Branches = r0.Config.Branches) ∨
        (r0.hasMaster = false ∧
          r2.Config.Branches =
            r0.Config.Branches ++ [⟨"master", "origin", "refs/heads/master"⟩])) ∧
      (st = DirState.repo r0 ∨
        (st = DirState.absent ∧
          gitPlainClone env (gistURL gistID username token) = .ok r0) ∨
        (∃ files, st = DirState.plain files ∧ gitPlainInit env st = .ok r0)) := by
  unfold ConfigureGistGit at h ⊢
  unfold gitPlainOpen at h ⊢
  cases ho : env.PlainOpen with
  | some msg => simp [ho] at h
  | none =>
    simp only [ho] at h ⊢
    cases st with
    | repo r0 =>
      simp only [] at h ⊢
      obtain ⟨r2, hd, hu, hc, hb⟩ := configureRemote_success _ _ _ _ _ h
      exact ⟨r0, r2, hd, hu, hc, hb, Or.inl rfl⟩
    | absent =>
      simp only [dirIsNotExist, if_true] at h ⊢
      cases hcl : gitPlainClone env (gistURL gistID username token) with
      | error e => simp [hcl] at h
      | ok r0 =>
        simp only [hcl] at h ⊢
        obtain ⟨r2, hd, hu, hc, hb⟩ := configureRemote_success _ _ _ _ _ h
        exact ⟨r0, r2, hd, hu, hc, hb, by simp [hcl]⟩
    | plain files =>
      simp only [dirIsNotExist, if_true, Bool.false_eq_true, if_false] at h ⊢
      cases hin : gitPlainInit env (DirState.plain files) with
      | error e => simp [hin] at h
      | ok r0 =>
        simp only [hin] at h ⊢
        obtain ⟨r2, hd, hu, hc, hb⟩ := configureRemote_success _ _ _ _ _ h
        exact ⟨r0, r2, hd, hu, hc, hb, by simp [hin]⟩

theorem hasMaster_of_branches (r0 r2 : Repository)
    (hb : (r0.hasMaster = true ∧ r2.Config.Branches = r0.Config.Branches) ∨
      (r0.hasMaster = false ∧
        r2.Config.Branches =
          r0.Config.Branches ++ [⟨"master", "origin", "refs/heads/master"⟩])) :
    r2.hasMaster = true := by
  unfold Repository.hasMaster at hb ⊢
  rcases hb with ⟨hm, he⟩ | ⟨_, he⟩
  · rw [he]; exact hm
  · rw [he]; simp

theorem configureGistGit_reconciles (env : GistGitEnv) (st : DirState)
    (dir gistID username token : String) (hcreate : env.CreateRemote = none)
    (h : (ConfigureGistGit env st dir gistID username token).outcome = Outcome.returned none) :
    ∃ r2, (ConfigureGistGit env st dir gistID username token).dir = DirState.repo r2 ∧
      r2.Reconciled (gistURL gistID username token) := by
  obtain ⟨r0, r2, hd, hu, horigin, hb, _⟩ :=
    configureGistGit_success env st dir gistID username token h
  rcases horigin with ⟨c, hc, hh, _⟩ | ⟨_, hne, _⟩
  · exact ⟨r2, hd, hu, ⟨c, hc, hh⟩, hasMaster_of_branches r0 r2 hb⟩
  · exact absurd hcreate hne

/-- What `ConfigureGistGit` does on a reconciled repository, by the calls of
the second run that fail. -/
theorem configureGistGit_on_reconciled (env : GistGitEnv) (r : Repository)
    (dir gistID username token : String)
    (hrec : r.Reconciled (gistURL gistID username token)) :
    (ConfigureGistGit env (DirState.repo r) dir gistID username token).dir = DirState.repo r ∧
      (∀ c ∈ (ConfigureGistGit env (DirState.repo r) dir gistID username token).calls,
        c.isWrite = false) ∧
      (env.PlainOpen = none → env.Remote = none → env.Config = none → env.Branch = none →
        ConfigureGistGit env (DirState.repo r) dir gistID username token =
          ⟨Outcome.returned none, DirState.repo r,
            [GitCall.PlainOpen dir, GitCall.Remote "origin", GitCall.Config,
              GitCall.Branch "master"]⟩) := by
  obtain ⟨hu, ⟨c, hc, hh⟩, hm⟩ := hrec
  unfold Repository.origin at hc
  unfold Repository.hasMaster at hm
  have hA : enforceAuthor r.Config = (r.Config, false) := by
    unfold enforceAuthor
    simp [hu]
  have hurl : ¬ (c.URLs.length = 0 ∨ c.URLs.head? ≠ some (gistURL gistID username token)) := by
    rintro (h0 | h1)
    · have : c.URLs = [] := List.length_eq_zero.mp h0
      rw [this] at hh
      simp at hh
    · exact h1 hh
  have hU : enforceRemoteURL r.Config false c (gistURL gistID username token) =
      (r.Config, false) := by
    unfold enforceRemoteURL
    rw [if_neg hurl]
  cases ho : env.PlainOpen <;> cases hr : env.Remote <;> cases hcf : env.Config <;>
    cases hb : env.Branch <;>
    simp [ConfigureGistGit, gitPlainOpen, configureRemote, repoRemote, configureConfig,
      repoConfig, configureSetConfig, configureBranch, repoBranch, ho, hr, hcf, hb, hc, hA,
      hU, hm, GitCall.isWrite]

theorem master_of_branches (r0 r2 : Repository)
    (hm : r0.hasMaster = false)
    (he : r2.Config.Branches =
      r0.Config.Branches ++ [⟨"master", "origin", "refs/heads/master"⟩]) :
    r2.master = some ⟨"master", "origin", "refs/heads/master"⟩ := by
  unfold Repository.hasMaster at hm
  unfold Repository.master
  rw [he, List.find?_append]
  have hnone : r0.Config.Branches.find? (fun b => b.Name == "master") = none := by
    rw [List.find?_eq_none]
    intro x hx hp
    have : r0.Config.Branches.any (fun b => b.Name == "master") = true :=
      List.any_eq_true.mpr ⟨x, hx, hp⟩
    rw [hm] at this
    cases this
  rw [hnone]
  simp

/-! ## Reconciliation: further claims -/

/-- Reconciling twice when the first call returned a nil error and its
`CreateRemote`, if made, did not fail: the second call, whatever fails in it,
leaves the repository as it is and makes no clone, no init, no remote
creation, no configuration write and no branch creation. -/
theorem reconcile_twice_when_creation_succeeds (env env2 : GistGitEnv) (st : DirState)
    (dir gistID username token : String) (hcreate : env.CreateRemote = none)
    (h : (ConfigureGistGit env st dir gistID username token).outcome = Outcome.returned none) :
    ∃ r1, (ConfigureGistGit env st dir gistID username token).dir = DirState.repo r1 ∧
      (ConfigureGistGit env2 (DirState.repo r1) dir gistID username token).dir =
        DirState.repo r1 ∧
      (∀ c ∈ (ConfigureGistGit env2 (DirState.repo r1) dir gistID username token).calls,
        c.isWrite = false) ∧
      (env2.PlainOpen = none → env2.Remote = none → env2.Config = none → env2.Branch = none →
        ConfigureGistGit env2 (DirState.repo r1) dir gistID username token =
          ⟨Outcome.returned none, DirState.repo r1,
            [GitCall.PlainOpen dir, GitCall.Remote "origin", GitCall.Config,
              GitCall.Branch "master"]⟩) := by
  obtain ⟨r1, hd, hrec⟩ :=
    configureGistGit_reconciles env st dir gistID username token hcreate h
  obtain ⟨h1, h2, h3⟩ := configureGistGit_on_reconciled env2 r1 dir gistID username token hrec
  exact ⟨r1, hd, h1, h2, h3⟩

/-- The remote after a nil return: either "origin" exists with the gist URL
first (the only URL when the call started without "origin", with "origin"
holding no URL or another first URL), or the call started without "origin",
its `CreateRemote` failed, and there is still no "origin". -/
theorem origin_after_success (env : GistGitEnv) (r0 : Repository)
    (dir gistID username token : String)
    (h : (ConfigureGistGit env (DirState.repo r0) dir gistID username token).outcome =
      Outcome.returned none) :
    ∃ r2, (ConfigureGistGit env (DirState.repo r0) dir gistID username token).dir =
        DirState.repo r2 ∧
      ((∃ c, r2.origin = some c ∧ c.URLs.head? = some (gistURL gistID username token) ∧
          ((r0.origin = none ∨
              ∃ c0, r0.origin = some c0 ∧
                (c0.URLs = [] ∨ c0.URLs.head? ≠ some (gistURL gistID username token))) →
            c.URLs = [gistURL gistID username token])) ∨
        (r0.origin = none ∧ env.CreateRemote ≠ none ∧ r2.origin = none)) := by
  obtain ⟨r0b, r2, hd, _, horigin, _, hst⟩ :=
    configureGistGit_success env (DirState.repo r0) dir gistID username token h
  have hr0 : r0b = r0 := by
    rcases hst with hs | ⟨hs, _⟩ | ⟨files, hs, _⟩ <;> cases hs
    rfl
  subst hr0
  refine ⟨r2, hd, ?_⟩
  rcases horigin with ⟨c, hc, hh, hor⟩ | hno
  · refine Or.inl ⟨c, hc, hh, ?_⟩
    intro hinit
    rcases hor with hurls | hsame
    · exact hurls
    · rcases hinit with hnone | ⟨c0, hc0, hbad⟩
      · rw [hnone] at hsame
        cases hsame
      · rw [hc0] at hsame
        cases hsame
        rcases hbad with hnil | hne
        · rw [hnil] at hh
          simp at hh
        · exact absurd hh hne
  · exact Or.inr hno

/-- C11, the code where the creation of the missing remote "origin" fails: on
a repository without that remote, with the configuration write of
`r.CreateRemote` failing and every other call succeeding, `ConfigureGistGit`
does not return the error; it goes on to `r.Config()` and `r.Branch("master")`
and returns a nil error, the repository unchanged.  When `r.Config()` fails
as well, the error returned is that of the configuration read. -/
theorem create_remote_failure_is_not_returned :
    ConfigureGistGit createRemoteFails (DirState.repo noOriginRepo) "users" "g" "u" "t" =
        ⟨Outcome.returned none, DirState.repo noOriginRepo,
          [GitCall.PlainOpen "users", GitCall.Remote "origin",
            GitCall.CreateRemote ⟨"origin", ["https://u:t@gist.github.com/g.git"]⟩,
            GitCall.Config, GitCall.Branch "master"]⟩ ∧
      createRemoteFails.CreateRemote = some "cannot write config" ∧
      ConfigureGistGit createRemoteAndConfigFail (DirState.repo noOriginRepo) "users" "g" "u"
          "t" =
        ⟨Outcome.returned
            (some (GoError.wrap "failed to read git config of repo users"
              (GoError.other "cannot read config"))),
          DirState.repo noOriginRepo,
          [GitCall.PlainOpen "users", GitCall.Remote "origin",
            GitCall.CreateRemote ⟨"origin", ["https://u:t@gist.github.com/g.git"]⟩,
            GitCall.Config]⟩ := by
  refine ⟨by decide, by decide, by decide⟩

/-- C12, the code after a first call whose `r.CreateRemote` failed: the first
call returns a nil error and leaves the repository without "origin"; the
second call with the same arguments, with no call failing, makes a
`CreateRemote` call and changes the configuration. -/
theorem second_reconcile_after_dropped_error_writes :
    (ConfigureGistGit createRemoteFails (DirState.repo noOriginRepo) "users" "g" "u"
        "t").outcome = Outcome.returned none ∧
      (ConfigureGistGit createRemoteFails (DirState.repo noOriginRepo) "users" "g" "u"
        "t").dir = DirState.repo noOriginRepo ∧
      ConfigureGistGit gistGitNoFaults
          (ConfigureGistGit createRemoteFails (DirState.repo noOriginRepo) "users" "g" "u"
            "t").dir "users" "g" "u" "t" =
        ⟨Outcome.returned none, DirState.repo dirtyRepo,
          [GitCall.PlainOpen "users", GitCall.Remote "origin",
            GitCall.CreateRemote ⟨"origin", ["https://u:t@gist.github.com/g.git"]⟩,
            GitCall.Config, GitCall.Branch "master"]⟩ ∧
      DirState.repo dirtyRepo ≠ DirState.repo noOriginRepo ∧
      (GitCall.CreateRemote ⟨"origin", ["https://u:t@gist.github.com/g.git"]⟩).isWrite =
        true := by
  refine ⟨by decide, by decide, by decide, by decide, by decide⟩

/-- C13, the code after a failed `r.CreateRemote`: on a repository without
"origin", `ConfigureGistGit` returns a nil error and the configuration of the
repository it leaves holds no remote named "origin". -/
theorem nil_return_without_origin :
    (ConfigureGistGit createRemoteFails (DirState.repo noOriginRepo) "users" "g" "u"
        "t").outcome = Outcome.returned none ∧
      (∃ r2, (ConfigureGistGit createRemoteFails (DirState.repo noOriginRepo) "users" "g" "u"
          "t").dir = DirState.repo r2 ∧
        r2.origin = none ∧ r2.Config.Remotes = []) ∧
      noOriginRepo.origin = none := by
  refine ⟨by decide, ⟨noOriginRepo, by decide, by decide, by decide⟩, by decide⟩

/-- C14, as stated, fails: on a repository whose branch "master" tracks
"upstream" and `refs/heads/main`, with no call failing, `ConfigureGistGit`
returns a nil error and leaves the branch as it is. -/
theorem master_tracking_is_not_corrected_counterexample :
    ConfigureGistGit gistGitNoFaults (DirState.repo otherTrackingRepo) "users" "g" "u" "t" =
        ⟨Outcome.returned none, DirState.repo otherTrackingRepo,
          [GitCall.PlainOpen "users", GitCall.Remote "origin", GitCall.Config,
            GitCall.Branch "master"]⟩ ∧
      otherTrackingRepo.master = some ⟨"master", "upstream", "refs/heads/main"⟩ := by
  refine ⟨by decide, by decide⟩

/-- C14, amended. Whenever `ConfigureGistGit` returns a nil error, the
configuration holds a branch named "master".  When the call started on a
repository without that branch, or cloned or initialised the repository, the
branch tracks the remote "origin" with merge ref `refs/heads/master`; when
the call started on a repository that had the branch, the branches are left
as they were. -/
theorem master_exists_after_success (env : GistGitEnv) (st : DirState)
    (dir gistID username token : String)
    (h : (ConfigureGistGit env st dir gistID username token).outcome = Outcome.returned none) :
    ∃ r2, (ConfigureGistGit env st dir gistID username token).dir = DirState.repo r2 ∧
      r2.hasMaster = true ∧
      (∀ r0, st = DirState.repo r0 → r0.hasMaster = false →
        r2.master = some ⟨"master", "origin", "refs/heads/master"⟩) ∧
      (∀ r0, st = DirState.repo r0 → r0.hasMaster = true →
        r2.Config.Branches = r0.Config.Branches ∧ r2.master = r0.master) ∧
      ((st = DirState.absent ∨ ∃ files, st = DirState.plain files) →
        r2.master = some ⟨"master", "origin", "refs/heads/master"⟩) := by
  obtain ⟨r0, r2, hd, _, _, hb, hst⟩ :=
    configureGistGit_success env st dir gistID username token h
  refine ⟨r2, hd, hasMaster_of_branches r0 r2 hb, ?_, ?_, ?_⟩
  · intro r0b hs hm
    rcases hst with hs2 | ⟨hs2, _⟩ | ⟨files, hs2, _⟩ <;> rw [hs2] at hs <;> cases hs
    rcases hb with ⟨hm2, _⟩ | ⟨hm2, he⟩
    · rw [hm] at hm2
      cases hm2
    · exact master_of_branches _ _ hm2 he
  · intro r0b hs hm
    rcases hst with hs2 | ⟨hs2, _⟩ | ⟨files, hs2, _⟩ <;> rw [hs2] at hs <;> cases hs
    rcases hb with ⟨_, he⟩ | ⟨hm2, _⟩
    · refine ⟨he, ?_⟩
      unfold Repository.master
      rw [he]
    · rw [hm] at hm2
      cases hm2
  · intro hs
    rcases hst with hs2 | ⟨hs2, hcl⟩ | ⟨files, hs2, hin⟩
    · rcases hs with hs | ⟨files, hs⟩ <;> rw [hs2] at hs <;> cases hs
    · unfold gitPlainClone at hcl
      cases hpc : env.PlainClone with
      | some msg => simp [hpc] at hcl
      | none =>
        simp only [hpc, Except.ok.injEq] at hcl
        subst hcl
        rcases hb with ⟨hm2, he⟩ | ⟨hm2, he⟩
        · simp only [Repository.hasMaster, List.any_cons, List.any_nil, Bool.or_false,
            beq_iff_eq] at hm2
          unfold Repository.master
          rw [he]
          simp [hm2]
        · exact master_of_branches _ _ hm2 he
    · rw [hs2] at hin
      unfold gitPlainInit at hin
      cases hpi : env.PlainInit with
      | some msg => simp [hpi] at hin
      | none =>
        simp only [hpi, Except.ok.injEq] at hin
        subst hin
        rcases hb with ⟨hm2, _⟩ | ⟨hm2, he⟩
        · simp [Repository.hasMaster] at hm2
        · exact master_of_branches _ _ hm2 he

/-- C14 amended, on a repository without the remote "origin" that has the
branch: the branches are left as they were. -/
theorem master_exists_after_success_witness :
    ∃ r2, (ConfigureGistGit gistGitNoFaults (DirState.repo noOriginRepo) "users" "g" "u"
          "t").dir = DirState.repo r2 ∧
      r2.hasMaster = true ∧ r2.Config.Branches = noOriginRepo.Config.Branches := by
  obtain ⟨r2, hd, hm, _, hsame, _⟩ :=
    master_exists_after_success gistGitNoFaults (DirState.repo noOriginRepo) "users" "g" "u"
      "t" (by decide)
  exact ⟨r2, hd, hm, (hsame noOriginRepo rfl (by decide)).1⟩

/-! ## Remove after a rejected line, account records, selections: claims -/

/-- C17, the code where a rejected index line comes first: on the list
`["d1","d2","d3"]`, the line `1,x` is rejected (`x` does not parse) and the
line `2` is accepted; the indices collected are 1, 0 and 2, and the list left
is `["d3"]`, while dropping the positions of the accepted line alone leaves
`["d1","d3"]`. -/
theorem rejected_line_indices_still_drop :
    (ParseUint "x").2 = false ∧
      (parseIdxs [] true (Split "1,x")) = ([1, 0], false) ∧
      removeScan "3" [] [some "1,x", some "2"] = some ([1, 0, 2], []) ∧
      ConfigureUserAccessList ["d1", "d2", "d3"] [] [some "3", some "1,x", some "2"] =
        some ⟨false, ["d3"], [], []⟩ ∧
      dropPositions ["d1", "d2", "d3"] ((Split "2").map (fun s => (ParseUint s).1)) =
        ["d1", "d3"] := by
  refine ⟨by decide, by decide, by decide, by decide, by decide⟩

/-- C18, the code on a listing with a text file before the one account file:
the scan from count 0 succeeds, encrypts one file and sets the count to 1,
which `DeployWorker` publishes as "1"; the one record is written at
`accounts/1`, and no record `accounts/0` exists. -/
theorem account_records_are_named_by_listing_position (aead : AEAD) :
    (ProcessAccountsJSONDir aead mixedListingEnv ⟨"secret", "keys", 0⟩ mixedListingFS).err =
        none ∧
      (ProcessAccountsJSONDir aead mixedListingEnv ⟨"secret", "keys", 0⟩
        mixedListingFS).Config.AccountsCount = 1 ∧
      publishedAccountsCount
        (ProcessAccountsJSONDir aead mixedListingEnv ⟨"secret", "keys", 0⟩
          mixedListingFS).Config = "1" ∧
      (ProcessAccountsJSONDir aead mixedListingEnv ⟨"secret", "keys", 0⟩
        mixedListingFS).written = ["accounts/1"] ∧
      (ProcessAccountsJSONDir aead mixedListingEnv ⟨"secret", "keys", 0⟩ mixedListingFS).fs
        "accounts/0" = none ∧
      ((ProcessAccountsJSONDir aead mixedListingEnv ⟨"secret", "keys", 0⟩ mixedListingFS).fs
        "accounts/1").isSome = true := by
  have hrun : ProcessAccountsJSONDir aead mixedListingEnv ⟨"secret", "keys", 0⟩
      mixedListingFS =
      ⟨none, ⟨"secret", "keys", 1⟩,
        fun p => if p = "accounts/1" then
          some (List.replicate 12 7 ++ aead.Seal "secret" (List.replicate 12 7) [1, 2, 3]
            (stringBytes "account"))
          else mixedListingFS p,
        ["accounts/1"]⟩ := by
    have h1 : HasSuffix "notes.txt" ".json" = false := by decide
    have h2 : HasSuffix "sa.json" ".json" = true := by decide
    have h3 : filepathJoin "keys" "sa.json" = "keys/sa.json" := by decide
    have h4 : filepathJoin "accounts" (toString 1) = "accounts/1" := by decide
    have h5 : mixedListingFS "keys/sa.json" = some [1, 2, 3] := by decide
    simp [ProcessAccountsJSONDir, mixedListingEnv, mixedListing, processAccountsLoop, h1, h2,
      h3, h4, ReadFile, h5, GCMEncrypt, WriteFile]
  rw [hrun]
  refine ⟨rfl, rfl, ?_, rfl, ?_, by simp⟩
  · show publishedAccountsCount ⟨"secret", "keys", 1⟩ = "1"
    decide
  · have hne : ¬ ("accounts/0" = "accounts/1") := by decide
    have h0 : mixedListingFS "accounts/0" = none := by decide
    simp only [hne, if_false, h0]

/-- C19, the code on selections outside the list: with two accounts, the lines
`0` and `3` make `SelectCloudflareAccount` index `accounts[selection-1]` out
of range and panic; with one worker, the line `2` makes `SelectWorker` do the
same on `resp.WorkerList`; the lines `2` and `1` select the second account
and the worker. -/
theorem selection_out_of_range_panics :
    SelectCloudflareAccount twoAccountsEnv "" [some "0"] =
        some ⟨Outcome.panicked, "", []⟩ ∧
      SelectCloudflareAccount twoAccountsEnv "" [some "3"] =
        some ⟨Outcome.panicked, "", []⟩ ∧
      SelectWorker twoAccountsEnv "" [some "2"] = some ⟨Outcome.panicked, "", []⟩ ∧
      selectionIndex 0 = 2 ^ 64 - 1 ∧
      SelectCloudflareAccount twoAccountsEnv "" [some "2"] =
        some ⟨Outcome.returned none, "id-b", []⟩ ∧
      SelectWorker twoAccountsEnv "" [some "1"] =
        some ⟨Outcome.returned none, "worker-a", []⟩ := by
  refine ⟨by decide, by decide, by decide, by decide, by decide, by decide⟩

end Gdir
